import Mathlib

/-!
# Verification of the CURIA/EUR-Lex scraper pipeline

Shallow embedding of the crawl-and-extract pipeline of the `scraper`
repository: the URL normalizer/deduplicator and the document-id extraction
of `src/main.py`, the checkpoint/dedup storage layer of
`src/storage/manager.py` (including the atomic file writer), the
error-handling skeleton of the two parsers
(`src/parsers/eurlex_parser.py`, `src/parsers/curia_parser.py`), and the
sequential and concurrent document batch processors of `src/main.py`.

Python strings are embedded as `String` (operated on through `List Char`),
Python `set[str]` as a duplicate-free `List String`, Python dicts keyed by
strings as association lists, and Python exceptions as `Except`/`Option`
values.  External collaborators (the browser, BeautifulSoup extraction
heuristics, the clock) are parameters of the definitions, never stubs of
logic that lives in this repository.
-/

namespace Scraper

/-! ## String utilities (embedding of Python substring / regex searches)

Python's `in` operator on strings and the `re.search` calls used by the
scraper all scan left to right for the first position where the pattern
matches; the functions below implement exactly that on `List Char`. -/

/-- `l` starts with `p` (list version of Python `startswith`). -/
def startsWithL : List Char → List Char → Bool
  | _, [] => true
  | [], _ :: _ => false
  | a :: as, b :: bs => a == b && startsWithL as bs

/-- `p` occurs somewhere in `l` (Python `p in l`). -/
def containsL : List Char → List Char → Bool
  | [], p => startsWithL [] p
  | a :: as, p => startsWithL (a :: as) p || containsL as p

/-- Python `pat in s` on strings. -/
def containsS (s pat : String) : Bool :=
  containsL s.data pat.data

/-- Longest run of ASCII digits at the head of the list (the `\d+` capture). -/
def takeDigits : List Char → List Char
  | [] => []
  | c :: cs => if c.isDigit then c :: takeDigits cs else []

/-- Longest run of characters other than `&` at the head (the `[^&]+` capture). -/
def takeNonAmp : List Char → List Char
  | [] => []
  | c :: cs => if c = '&' then [] else c :: takeNonAmp cs

/-- `re.search(r"docid=(\d+)", url)`: leftmost position where `docid=` is
followed by at least one digit; returns the maximal digit run. -/
def findDocid : List Char → Option String
  | [] => none
  | c :: cs =>
    if startsWithL (c :: cs) "docid=".data then
      if takeDigits (List.drop 6 (c :: cs)) = [] then findDocid cs
      else some (String.mk (takeDigits (List.drop 6 (c :: cs))))
    else findDocid cs

/-- `re.search(r"CELEX:([^&]+)", url)`: leftmost position where `CELEX:` is
followed by at least one non-`&` character; returns the maximal such run. -/
def findCelex : List Char → Option String
  | [] => none
  | c :: cs =>
    if startsWithL (c :: cs) "CELEX:".data then
      if takeNonAmp (List.drop 6 (c :: cs)) = [] then findCelex cs
      else some (String.mk (takeNonAmp (List.drop 6 (c :: cs))))
    else findCelex cs

/-- Attempt to match `/([A-Z]{2})/` at the current position. -/
def pathLangAt : List Char → Option String
  | '/' :: a :: b :: '/' :: _ =>
    if a.isUpper && b.isUpper then some (String.mk [a, b]) else none
  | _ => none

/-- `re.search(r'/([A-Z]{2})/', url)`: leftmost `/XX/` with two ASCII
uppercase letters; returns the two-letter language code. -/
def findPathLang : List Char → Option String
  | [] => none
  | c :: cs =>
    match pathLangAt (c :: cs) with
    | some s => some s
    | none => findPathLang cs

/-- `CuriaScraperEngine._extract_doc_id_from_url` (src/main.py:595-600). -/
def extract_doc_id_from_url (url : String) : Option String :=
  findDocid url.data

/-! ## Language filtering and URL deduplication (src/main.py)

Python truthiness: the preferred language is falsy when it is the empty
string (or unset); we embed it as a `String` with `""` playing the role of
"not configured". -/

/-- `CuriaScraperEngine._should_include_document` (src/main.py:236-272),
with `preferredLang` standing for `self.settings.general.preferred_language`. -/
def should_include_document (preferredLang : String) (url : String) : Bool :=
  if preferredLang = "" then true
  else if containsS url "eur-lex.europa.eu" then
    if containsS url ("/" ++ preferredLang ++ "/") then true
    else
      match findPathLang url.data with
      | some l => if l ≠ preferredLang then false else true
      | none => true
  else if containsS url ("doclang=" ++ preferredLang) then true
  else if containsS url "doclang=" then false
  else true

/-- The language-parameter augmentation done inside `_deduplicate_urls`
(src/main.py:292-297): append `&doclang=<lang>` when a language is
configured and the URL has no `doclang=` parameter yet. -/
def appendLangIfNeeded (lang url : String) : String :=
  if lang ≠ "" ∧ containsS url "doclang=" = false then
    url ++ "&doclang=" ++ lang
  else url

/-- Loop body of `CuriaScraperEngine._deduplicate_urls` (src/main.py:274-324).
`seen` is the `seen_ids` set (one shared set for docids, CELEX ids and
fallback URLs) and `acc` accumulates `unique_urls` in reverse. -/
def dedupGo (lang : String) : List String → List String → List String → List String
  | _, acc, [] => acc.reverse
  | seen, acc, url :: rest =>
    match findDocid url.data with
    | some d =>
      if d ∈ seen then dedupGo lang seen acc rest
      else dedupGo lang (d :: seen) (appendLangIfNeeded lang url :: acc) rest
    | none =>
      match findCelex url.data with
      | some c =>
        if c ∈ seen then dedupGo lang seen acc rest
        else dedupGo lang (c :: seen) (url :: acc) rest
      | none =>
        if url ∈ seen then dedupGo lang seen acc rest
        else dedupGo lang (url :: seen) (url :: acc) rest

/-- `CuriaScraperEngine._deduplicate_urls` (src/main.py:274-324). -/
def deduplicate_urls (lang : String) (urls : List String) : List String :=
  dedupGo lang [] [] urls

/-! Spec-side restatement of the dedup rule (section 4.1 of the spec):
a single identity key extracted in priority order docid / CELEX / full URL,
first occurrence of a key wins, and the retained URL is augmented with the
preferred language exactly when the key came from the docid case. -/

/-- Modelled from the spec: the per-document identity key, in priority order
(1) numeric document-id parameter, (2) CELEX identifier, (3) the URL itself. -/
def dedupKey (url : String) : String :=
  match findDocid url.data with
  | some d => d
  | none =>
    match findCelex url.data with
    | some c => c
    | none => url

/-- Modelled from the spec: the emitted URL — augmented with the preferred
language exactly when the identity key came from the docid case. -/
def specEmit (lang url : String) : String :=
  match findDocid url.data with
  | some _ => appendLangIfNeeded lang url
  | none => url

/-- Modelled from the spec: keep the first occurrence of each identity key,
in order, emitting the (possibly augmented) URL. -/
def specDedupGo (lang : String) (seen : List String) : List String → List String
  | [] => []
  | url :: rest =>
    if dedupKey url ∈ seen then specDedupGo lang seen rest
    else specEmit lang url :: specDedupGo lang (dedupKey url :: seen) rest

/-- Modelled from the spec: the whole normalization pass of section 4.1. -/
def specDedup (lang : String) (urls : List String) : List String :=
  specDedupGo lang [] urls

/-! ## Decimal rendering of document indexes

`StorageManager.save_document_metadata` names its output file
`f"doc_{doc_index:06d}.json"`; we embed the decimal rendering and prove the
filename is injective in the index (needed for the dedup-index reasoning). -/

/-- The ASCII digit character for `d < 10`. -/
def digitChar (d : Nat) : Char := Char.ofNat (48 + d)

/-- Little-endian decimal digits of `n`, with explicit fuel so that the
recursion is structural (the fuel `n + 1` always suffices). -/
def natDigitsRevFuel : Nat → Nat → List Char
  | 0, _ => []
  | fuel + 1, n =>
    if n < 10 then [digitChar n]
    else digitChar (n % 10) :: natDigitsRevFuel fuel (n / 10)

/-- Little-endian decimal digits of `n` (always at least one digit). -/
def natDigitsRev (n : Nat) : List Char := natDigitsRevFuel (n + 1) n

/-- Value of a little-endian digit list. -/
def revVal : List Char → Nat
  | [] => 0
  | c :: cs => 10 * revVal cs + (c.toNat - 48)

/-- Value of a big-endian digit string (how a decimal literal reads). -/
def strVal (l : List Char) : Nat :=
  l.foldl (fun acc c => 10 * acc + (c.toNat - 48)) 0

/-- `f"{n:06d}"`: the decimal digits of `n`, left-padded with zeros to
width 6 (wider numbers are not truncated). -/
def pad6 (n : Nat) : List Char :=
  List.replicate (6 - (natDigitsRev n).length) '0' ++ (natDigitsRev n).reverse

/-- `f"doc_{doc_index:06d}.json"` (src/storage/manager.py:231). -/
def metadataFilename (idx : Nat) : String :=
  String.mk ("doc_".data ++ pad6 idx ++ ".json".data)

/-! ## Checkpoint and storage model (src/storage/manager.py)

`CheckpointData` mirrors the dataclass of the same name.  The Python
`set[str]` field `processed_doc_ids` is embedded as a `List String` kept
duplicate-free by the insertion function `insertId` (Python `set.add`).
Timestamps are opaque strings supplied by the caller where the code calls
`datetime.now()`. -/

structure CheckpointData where
  session_id : String
  start_time : String
  last_update : String
  processed_pages : Nat
  processed_documents : Nat
  processed_doc_ids : List String
  current_page_url : Option String := none
  errors_count : Nat := 0
deriving DecidableEq

/-- Python `set.add`: insert unless already present. -/
def insertId (d : String) (ids : List String) : List String :=
  if d ∈ ids then ids else d :: ids

/-- Python `set(list)`: rebuild a set from a serialized list
(`CheckpointData.from_dict`, src/storage/manager.py:52-58). -/
def listToSet (l : List String) : List String :=
  l.foldr insertId []

/-- Python truthiness of an optional string (`None` and `""` are falsy). -/
def truthyOptStr : Option String → Bool
  | none => false
  | some s => s ≠ ""

/-- First-match lookup in an association list (a Python dict read). -/
def lookupAssoc : List (String × String) → String → Option String
  | [], _ => none
  | (k, v) :: rest, key => if k = key then some v else lookupAssoc rest key

/-- Python dict assignment `d[k] = v` (normalized: remove old binding, add new). -/
def setAssoc (l : List (String × String)) (k v : String) : List (String × String) :=
  (k, v) :: l.filter (fun p => p.1 ≠ k)

/-- `DataDeduplicator.is_duplicate` (src/storage/manager.py:121-126):
true iff the index already maps that exact filename to that exact hash. -/
def is_duplicate (hashes : List (String × String)) (filename contentHash : String) : Bool :=
  match lookupAssoc hashes filename with
  | some h => h = contentHash
  | none => false

/-- The in-memory state of `StorageManager` relevant to the claims:
the optional checkpoint, the dedup index (`DataDeduplicator.hashes`),
plus two event logs recording the externally visible effects — metadata
files actually written to disk, and `save_error_info` artifacts. -/
structure StorageState where
  checkpoint_data : Option CheckpointData
  hashes : List (String × String)
  metaWrites : List String
  errorLog : List (Nat × String × String)
deriving DecidableEq

/-- Fresh session (`StorageManager.initialize_session` when no checkpoint
file exists, src/storage/manager.py:177-189): all counters at zero. -/
def initStorage (session_id now : String) : StorageState :=
  { checkpoint_data := some
      { session_id := session_id
        start_time := now
        last_update := now
        processed_pages := 0
        processed_documents := 0
        processed_doc_ids := [] }
    hashes := []
    metaWrites := []
    errorLog := [] }

/-- `StorageManager.is_document_processed` (src/storage/manager.py:208-212). -/
def is_document_processed (st : StorageState) (doc_id : String) : Bool :=
  match st.checkpoint_data with
  | some cd => doc_id ∈ cd.processed_doc_ids
  | none => false

/-- The metadata record as far as the storage layer can observe it:
`doc_id` and `url` are the fields `save_document_metadata` reads, `body`
stands for the remaining serialized fields of the parser's dataclass. -/
structure MetaRecord where
  doc_id : Option String
  url : Option String
  body : String
deriving DecidableEq

/-- `StorageManager.save_document_metadata` (src/storage/manager.py:214-278),
in the `compress=False` form used by the pipeline, under the assumption that
the disk write itself succeeds.  `hash` embeds the SHA-256 of the canonical
serialization of the record (a deterministic function of the record).
The checkpoint is updated only when a checkpoint exists and the record's
`doc_id` is truthy (src/storage/manager.py:260-263). -/
def save_document_metadata (hash : MetaRecord → String) (st : StorageState)
    (m : MetaRecord) (doc_index : Nat) : StorageState :=
  if is_duplicate st.hashes (metadataFilename doc_index) (hash m) then st
  else
    let st1 : StorageState :=
      { st with
        metaWrites := st.metaWrites ++ [metadataFilename doc_index]
        hashes := setAssoc st.hashes (metadataFilename doc_index) (hash m) }
    match st1.checkpoint_data, m.doc_id with
    | some cd, some d =>
      if d ≠ "" then
        let cd' : CheckpointData :=
          { cd with
            processed_documents := cd.processed_documents + 1
            processed_doc_ids := insertId d cd.processed_doc_ids }
        { st1 with checkpoint_data := some cd' }
      else st1
    | _, _ => st1

/-- `StorageManager.save_error_info` (src/storage/manager.py:328-346),
recorded as an event (the error artifact that gets written). -/
def save_error_info (st : StorageState) (doc_index : Nat) (url err : String) :
    StorageState :=
  { st with errorLog := st.errorLog ++ [(doc_index, url, err)] }

/-- `StorageManager.update_page_progress` (src/storage/manager.py:348-356):
the page counter is ASSIGNED the caller's page number (not incremented). -/
def update_page_progress (st : StorageState) (page_num : Nat) (current_url : String) :
    StorageState :=
  match st.checkpoint_data with
  | some cd =>
    let cd' : CheckpointData :=
      { cd with processed_pages := page_num, current_page_url := some current_url }
    { st with checkpoint_data := some cd' }
  | none => st

/-- `save_checkpoint` followed by a later `initialize_session` load:
the state-level round trip through `to_dict`/JSON/`from_dict`
(src/storage/manager.py:45-58,156-176).  The ID set is serialized as a
list and rebuilt with `set(...)`; counters and the dedup index (persisted
in its own file) survive unchanged. -/
def restoreCheckpoint (cd : CheckpointData) : CheckpointData :=
  { cd with processed_doc_ids := listToSet cd.processed_doc_ids }

def restoreStorage (st : StorageState) : StorageState :=
  { st with checkpoint_data := Option.map restoreCheckpoint st.checkpoint_data }

/-! ## Atomic checkpoint persistence (src/storage/manager.py:61-81,191-206)

A filesystem is a map from paths to file contents, embedded as an
association list. `AtomicFileWriter` opens `<path>.tmp`, lets the body
write into it, and on `__exit__` either moves the temp file over the final
path (no exception) or unlinks the temp file (exception). -/

/-- Contents of named files. -/
def FileSys : Type := List (String × String)

def fsRead (fs : FileSys) (path : String) : Option String :=
  lookupAssoc fs path

def fsWrite (fs : FileSys) (path content : String) : FileSys :=
  setAssoc fs path content

def fsRemove (fs : FileSys) (path : String) : FileSys :=
  List.filter (fun p => p.1 ≠ path) fs

/-- `filepath.with_suffix(filepath.suffix + '.tmp')`: for any path this is
the original name with `.tmp` appended. -/
def tmpName (path : String) : String := path ++ ".tmp"

/-- Outcome of the `with AtomicFileWriter(...) as f: json.dump(...)` body:
either the full serialized content was handed to the file object, or an
exception interrupted the body after some prefix of the bytes. -/
inductive WriteAttempt where
  | ok (content : String)
  | crash (written : String)
deriving DecidableEq

/-- `AtomicFileWriter.__enter__`/`__exit__` (src/storage/manager.py:61-81):
write into the temp file; move it over the final path only when the body
raised no exception, otherwise unlink the temp file. -/
def atomicFileWriter (fs : FileSys) (path : String) : WriteAttempt → FileSys
  | .ok content =>
    fsRemove (fsWrite (fsWrite fs (tmpName path) content) path content) (tmpName path)
  | .crash written =>
    fsRemove (fsWrite fs (tmpName path) written) (tmpName path)

/-- Serialization of the checkpoint (`json.dump(self.checkpoint_data.to_dict(), f)`),
with the ID set written out as a list. -/
def serializeCheckpoint (cd : CheckpointData) : String :=
  "session_id=" ++ cd.session_id ++
  ";start_time=" ++ cd.start_time ++
  ";last_update=" ++ cd.last_update ++
  ";processed_pages=" ++ String.mk (pad6 cd.processed_pages) ++
  ";processed_documents=" ++ String.mk (pad6 cd.processed_documents) ++
  ";processed_doc_ids=" ++ String.intercalate "," cd.processed_doc_ids

/-- `StorageManager.save_checkpoint` (src/storage/manager.py:191-206) acting
on the checkpoint file: serialize the state (with `last_update := now`) and
write it through `AtomicFileWriter`; `outcome = none` is the normal path,
`outcome = some w` an exception after `w` was written to the temp file
(caught by the surrounding `except`, hence no exception escapes). -/
def save_checkpoint (fs : FileSys) (path : String) (cd : CheckpointData)
    (now : String) (outcome : Option String) : FileSys :=
  match outcome with
  | none => atomicFileWriter fs path (.ok (serializeCheckpoint { cd with last_update := now }))
  | some w => atomicFileWriter fs path (.crash w)

/-! ## Parsers (src/parsers/eurlex_parser.py, src/parsers/curia_parser.py)

The extraction heuristics (BeautifulSoup traversals and regexes over the
HTML) are external collaborators per the spec; we embed their combined
outcome as an `Except`-valued argument: `.ok` carries the extracted field
values, `.error` an exception raised inside the extraction pipeline.
What belongs to this repository — and is modelled exactly — is the control
flow around that pipeline: `EurLexDocumentParser.parse_document` wraps its
whole body in `try/except` and returns a minimal record with quality 0.0
on failure (eurlex_parser.py:207-270), while
`CuriaDocumentParser.parse_document` has no handler at all
(curia_parser.py:186-246), so an internal exception propagates. -/

/-- `EurLexDocumentMetadata` (eurlex_parser.py:27-63); the quality score is
a rational in [0,1], list fields default to empty per `__post_init__`. -/
structure EurLexDocumentMetadata where
  doc_id : Option String := none
  url : Option String := none
  language : Option String := none
  celex_number : Option String := none
  title : Option String := none
  document_type : Option String := none
  date_of_document : Option String := none
  date_of_publication : Option String := none
  court_formation : Option String := none
  procedure_type : Option String := none
  parties : List String := []
  subject_matter : List String := []
  keywords : List String := []
  legal_basis : Option String := none
  case_law_directory_code : Option String := none
  html_length : Nat := 0
  content_quality_score : Rat := 0
  processing_method : Option String := none
deriving DecidableEq

/-- The values produced by the EUR-Lex extraction pipeline when it runs to
completion (`_extract_celex_number` … `assess_quality`). -/
structure EurLexExtract where
  celex_number : Option String := none
  title : Option String := none
  language : Option String := none
  document_type : Option String := none
  date_of_document : Option String := none
  date_of_publication : Option String := none
  court_formation : Option String := none
  procedure_type : Option String := none
  parties : List String := []
  subject_matter : List String := []
  keywords : List String := []
  legal_basis : Option String := none
  case_law_directory_code : Option String := none
  content_quality_score : Rat := 0
deriving DecidableEq

/-- `EurLexDocumentParser.parse_document` (eurlex_parser.py:188-270):
the `try` body fills the record from the extraction pipeline; the `except`
arm returns the minimal record of lines 264-270 (identity fields kept,
quality score 0.0) — no exception ever reaches the caller. -/
def eurlex_parse_document (html url : String) (doc_id : Option String)
    (processing_method : String) (extraction : Except String EurLexExtract) :
    EurLexDocumentMetadata :=
  match extraction with
  | .ok ex =>
    { doc_id := doc_id
      url := some url
      html_length := html.length
      processing_method := some processing_method
      language := ex.language
      celex_number := ex.celex_number
      title := ex.title
      document_type := ex.document_type
      date_of_document := ex.date_of_document
      date_of_publication := ex.date_of_publication
      court_formation := ex.court_formation
      procedure_type := ex.procedure_type
      parties := ex.parties
      subject_matter := ex.subject_matter
      keywords := ex.keywords
      legal_basis := ex.legal_basis
      case_law_directory_code := ex.case_law_directory_code
      content_quality_score := ex.content_quality_score }
  | .error _ =>
    { doc_id := doc_id
      url := some url
      html_length := html.length
      processing_method := some processing_method
      content_quality_score := 0 }

/-- `DocumentMetadata` (curia_parser.py:27-61). -/
structure DocumentMetadata where
  doc_id : Option String := none
  url : Option String := none
  language : Option String := none
  case_number : Option String := none
  title : Option String := none
  date_of_judgment : Option String := none
  court_formation : Option String := none
  procedure_type : Option String := none
  parties : List String := []
  subject_matter : List String := []
  keywords : List String := []
  celex_number : Option String := none
  ecli_identifier : Option String := none
  html_length : Nat := 0
  content_quality_score : Rat := 0
  processing_method : Option String := none
deriving DecidableEq

/-- The values produced by the CURIA extraction pipeline when it runs to
completion. -/
structure CuriaExtract where
  language : Option String := none
  case_number : Option String := none
  title : Option String := none
  date_of_judgment : Option String := none
  celex_number : Option String := none
  ecli_identifier : Option String := none
  court_formation : Option String := none
  procedure_type : Option String := none
  parties : List String := []
  subject_matter : List String := []
  keywords : List String := []
  content_quality_score : Rat := 0
deriving DecidableEq

/-- `CuriaDocumentParser.parse_document` (curia_parser.py:186-246): the body
runs with NO exception handler, so a failure inside the extraction pipeline
propagates to the caller (`.error`), unlike the EUR-Lex parser. -/
def curia_parse_document (html url : String) (doc_id : Option String)
    (processing_method : String) (extraction : Except String CuriaExtract) :
    Except String DocumentMetadata :=
  match extraction with
  | .ok ex =>
    .ok
      { doc_id := doc_id
        url := some url
        html_length := html.length
        processing_method := some processing_method
        language := ex.language
        case_number := ex.case_number
        title := ex.title
        date_of_judgment := ex.date_of_judgment
        celex_number := ex.celex_number
        ecli_identifier := ex.ecli_identifier
        court_formation := ex.court_formation
        procedure_type := ex.procedure_type
        parties := ex.parties
        subject_matter := ex.subject_matter
        keywords := ex.keywords
        content_quality_score := ex.content_quality_score }
  | .error e => .error e

/-! ## Document batch processing (src/main.py:326-433)

`parseBody` embeds the parser's output for a link (everything except
`doc_id` and `url`, which the engine passes through); `attempt idx link`
is `none` when `_process_single_document` succeeds and `some e` when it
raises (navigation failure or extraction exception) with message `e`.
On success, the storage effect of `_process_single_document` is
`save_document_metadata` on the parsed record (main.py:473); on failure
the document has no storage effect of its own — the caller records the
error.  PDF side artifacts are not modelled; their dedup-index keys end in
`.pdf` and never collide with the `doc_*.json` metadata keys. -/

/-- The record handed to `save_document_metadata` for a link: the engine
passes `doc_id = _extract_doc_id_from_url(link)` and `url = link` into the
parser, which stores them verbatim (main.py:439,461-470). -/
def mkRecord (parseBody : String → String) (link : String) : MetaRecord :=
  { doc_id := extract_doc_id_from_url link
    url := some link
    body := parseBody link }

/-- The resume skip of `_process_documents_sequential` /
`_process_documents_concurrent` (main.py:355-358,400-402):
`if doc_id and self.storage.is_document_processed(doc_id)`. -/
def skipCheck (st : StorageState) (link : String) : Bool :=
  match extract_doc_id_from_url link with
  | some d => d ≠ "" && is_document_processed st d
  | none => false

/-- What happened to one examined link in the sequential loop. -/
inductive DocOutcome where
  | skipped (doc_index : Nat) (link : String)
  | succeeded (doc_index : Nat) (link : String)
  | failed (doc_index : Nat) (link : String) (err : String)
deriving DecidableEq

def DocOutcome.link : DocOutcome → String
  | .skipped _ l => l
  | .succeeded _ l => l
  | .failed _ l _ => l

def DocOutcome.isSuccess : DocOutcome → Bool
  | .succeeded _ _ => true
  | _ => false

structure BatchResult where
  state : StorageState
  processed_count : Nat
  outcomes : List DocOutcome
deriving DecidableEq

/-- Loop of `_process_documents_sequential` (main.py:345-379): per link,
skip if already processed; break once `processed_count` (the PER-BATCH
success counter — `start_index` is only used for file naming) reached a
truthy `max_documents`; otherwise dispatch, incrementing the counter on
success and recording the error via `save_error_info` on exception. -/
def seqGo (hash : MetaRecord → String) (parseBody : String → String)
    (attempt : Nat → String → Option String) (maxDocs startIndex : Nat) :
    StorageState → Nat → Nat → List DocOutcome → List String → BatchResult
  | st, _, count, acc, [] => ⟨st, count, acc.reverse⟩
  | st, i, count, acc, link :: rest =>
    if skipCheck st link then
      seqGo hash parseBody attempt maxDocs startIndex st (i + 1) count
        (.skipped (startIndex + i + 1) link :: acc) rest
    else if maxDocs ≠ 0 ∧ count ≥ maxDocs then ⟨st, count, acc.reverse⟩
    else
      match attempt (startIndex + i + 1) link with
      | none =>
        seqGo hash parseBody attempt maxDocs startIndex
          (save_document_metadata hash st (mkRecord parseBody link) (startIndex + i + 1))
          (i + 1) (count + 1) (.succeeded (startIndex + i + 1) link :: acc) rest
      | some e =>
        seqGo hash parseBody attempt maxDocs startIndex
          (save_error_info st (startIndex + i + 1) link e)
          (i + 1) count (.failed (startIndex + i + 1) link e :: acc) rest

/-- `_process_documents_sequential` (main.py:345-379). -/
def process_documents_sequential (hash : MetaRecord → String)
    (parseBody : String → String) (attempt : Nat → String → Option String)
    (maxDocs : Nat) (st : StorageState) (links : List String) (startIndex : Nat) :
    BatchResult :=
  seqGo hash parseBody attempt maxDocs startIndex st 0 0 [] links

/-- Task-collection loop of `_process_documents_concurrent`
(main.py:394-411): same skip, but the ceiling compares `len(tasks)`. -/
def concTasksGo (st : StorageState) (maxDocs startIndex : Nat) :
    Nat → List (Nat × String) → List String → List (Nat × String)
  | _, acc, [] => acc.reverse
  | i, acc, link :: rest =>
    if skipCheck st link then concTasksGo st maxDocs startIndex (i + 1) acc rest
    else if maxDocs ≠ 0 ∧ acc.length ≥ maxDocs then acc.reverse
    else concTasksGo st maxDocs startIndex (i + 1) ((startIndex + i + 1, link) :: acc) rest

/-- Error-recording loop of `_process_documents_concurrent`
(main.py:422-431): `results` is aligned with the TASK list, but
`doc_index` and `doc_link` are recomputed from the result POSITION `i`
(`start_index + i + 1`, `document_links[i]`), i.e. against the original
link list, which mismatches whenever a link was skipped before a failing
task. -/
def concErrorsGo (attempt : Nat → String → Option String) (startIndex : Nat)
    (links : List String) : StorageState → Nat → List (Nat × String) → StorageState
  | st, _, [] => st
  | st, i, t :: rest =>
    match attempt t.1 t.2 with
    | some e =>
      concErrorsGo attempt startIndex links
        (save_error_info st (startIndex + i + 1) (links.getD i "unknown") e) (i + 1) rest
    | none => concErrorsGo attempt startIndex links st (i + 1) rest

structure ConcResult where
  state : StorageState
  processed_count : Nat
  tasks : List (Nat × String)
deriving DecidableEq

/-- `_process_documents_concurrent` (main.py:381-433).  Task completions
mutate storage through the single event loop (spec section 5: completion
handlers are serialized), embedded here in task order; the success count
is the number of non-exception results. -/
def process_documents_concurrent (hash : MetaRecord → String)
    (parseBody : String → String) (attempt : Nat → String → Option String)
    (maxDocs : Nat) (st : StorageState) (links : List String) (startIndex : Nat) :
    ConcResult :=
  let tasks := concTasksGo st maxDocs startIndex 0 [] links
  let st1 := tasks.foldl
    (fun s t =>
      match attempt t.1 t.2 with
      | none => save_document_metadata hash s (mkRecord parseBody t.2) t.1
      | some _ => s) st
  let st2 := concErrorsGo attempt startIndex links st1 0 tasks
  { state := st2
    processed_count := (tasks.filter (fun t => (attempt t.1 t.2).isNone)).length
    tasks := tasks }

structure CrawlResult where
  state : StorageState
  total : Nat
deriving DecidableEq

/-- Page loop of `_process_listing_pages` (main.py:129-175), sequential
mode: `pages` are the per-listing-page link lists after extraction and
dedup; `page_num` starts at 1 and `total_processed` at 0 (also on resume);
after each batch the running total grows by the batch count and the loop
halts when it reaches a truthy `max_documents`. -/
def pagesGo (hash : MetaRecord → String) (parseBody : String → String)
    (attempt : Nat → String → Option String) (maxDocs : Nat)
    (pageUrl : Nat → String) :
    StorageState → Nat → Nat → List (List String) → CrawlResult
  | st, _, total, [] => ⟨st, total⟩
  | st, pageNum, total, links :: rest =>
    if links = [] then ⟨st, total⟩
    else
      let r := process_documents_sequential hash parseBody attempt maxDocs st links total
      let st' := update_page_progress r.state pageNum (pageUrl pageNum)
      if maxDocs ≠ 0 ∧ total + r.processed_count ≥ maxDocs then
        ⟨st', total + r.processed_count⟩
      else pagesGo hash parseBody attempt maxDocs pageUrl st' (pageNum + 1)
        (total + r.processed_count) rest

/-- `_process_listing_pages` (main.py:113-184), starting at page 1 with a
zero running total. -/
def process_listing_pages (hash : MetaRecord → String)
    (parseBody : String → String) (attempt : Nat → String → Option String)
    (maxDocs : Nat) (pageUrl : Nat → String) (st : StorageState)
    (pages : List (List String)) : CrawlResult :=
  pagesGo hash parseBody attempt maxDocs pageUrl st 1 0 pages

/-! ## Accessors used by the theorems -/

/-- The persisted document counter of the checkpoint (0 if no checkpoint). -/
def checkpointDocs (st : StorageState) : Nat :=
  match st.checkpoint_data with
  | some cd => cd.processed_documents
  | none => 0

/-- The set of processed document IDs (empty if no checkpoint). -/
def checkpointIds (st : StorageState) : List String :=
  match st.checkpoint_data with
  | some cd => cd.processed_doc_ids
  | none => []

/-- The page counter of the checkpoint (0 if no checkpoint). -/
def checkpointPages (st : StorageState) : Nat :=
  match st.checkpoint_data with
  | some cd => cd.processed_pages
  | none => 0

/-- A concrete content hash (any deterministic function of the record
models the SHA-256 of its canonical serialization). -/
def demoHash (m : MetaRecord) : String :=
  m.doc_id.getD "null" ++ ":" ++ m.url.getD "null" ++ ":" ++ m.body

def demoRecord : MetaRecord :=
  { doc_id := some "42", url := some "https://example.org/doc?docid=42", body := "payload" }

def demoSave1 : StorageState :=
  save_document_metadata demoHash (initStorage "sess" "t0") demoRecord 1

def demoSave2 : StorageState :=
  save_document_metadata demoHash demoSave1 demoRecord 1

/-- A record whose `doc_id` is absent, as produced for any URL without a
`docid=` parameter (e.g. a CELEX-identified EUR-Lex document). -/
def noIdRecord : MetaRecord :=
  { doc_id := none
    url := some "https://eur-lex.europa.eu/legal-content/EN/TXT/?uri=CELEX:32019R0001"
    body := "payload" }

/-- One checkpoint-mutating operation of the storage manager, plus the
persist/load round trip of the checkpoint file. -/
inductive StorageStep (hash : MetaRecord → String) : StorageState → StorageState → Prop
  | save_meta (st : StorageState) (m : MetaRecord) (i : Nat) :
      StorageStep hash st (save_document_metadata hash st m i)
  | page_progress (st : StorageState) (n : Nat) (url : String) :
      StorageStep hash st (update_page_progress st n url)
  | error_info (st : StorageState) (i : Nat) (url e : String) :
      StorageStep hash st (save_error_info st i url e)
  | persist_resume (st : StorageState) :
      StorageStep hash st (restoreStorage st)

/-- States reachable from a fresh session through storage operations. -/
inductive ReachableStorage (hash : MetaRecord → String) : StorageState → Prop
  | init (sid now : String) : ReachableStorage hash (initStorage sid now)
  | step {s t : StorageState} : ReachableStorage hash s → StorageStep hash s t →
      ReachableStorage hash t

/-- C3 counterexample trace: a run visits pages 1 and 2, the checkpoint is
persisted and reloaded, and the resumed run — which restarts `page_num`
at 1 (main.py:129) — calls `update_page_progress(1, ...)`, ASSIGNING the
page counter back down from 2 to 1. -/
def pagesTrace1 : StorageState :=
  update_page_progress (initStorage "s1" "t0") 1 "https://curia.europa.eu/list?page=1"

def pagesTrace2 : StorageState :=
  update_page_progress pagesTrace1 2 "https://curia.europa.eu/list?page=2"

def pagesTrace3 : StorageState :=
  update_page_progress (restoreStorage pagesTrace2) 1 "https://curia.europa.eu/list?page=1"

/-- All attempts succeed (navigation and extraction never raise). -/
def attemptOk : Nat → String → Option String := fun _ _ => none

/-- A concrete parser body for examples. -/
def demoParseBody : String → String := fun _ => "parsed"

/-- Ten links with distinct docids discovered on one listing page. -/
def links10 : List String :=
  ["https://curia.europa.eu/doc?docid=101",
   "https://curia.europa.eu/doc?docid=102",
   "https://curia.europa.eu/doc?docid=103",
   "https://curia.europa.eu/doc?docid=104",
   "https://curia.europa.eu/doc?docid=105",
   "https://curia.europa.eu/doc?docid=106",
   "https://curia.europa.eu/doc?docid=107",
   "https://curia.europa.eu/doc?docid=108",
   "https://curia.europa.eu/doc?docid=109",
   "https://curia.europa.eu/doc?docid=110"]

/-- Two links on an earlier listing page. -/
def linksPage1 : List String :=
  ["https://curia.europa.eu/doc?docid=1",
   "https://curia.europa.eu/doc?docid=2"]

/-- A link whose document was already processed in an earlier run. -/
def urlA : String := "https://curia.europa.eu/juris/doc?docid=100&doclang=EN"

/-- A link whose processing raises. -/
def urlB : String := "https://curia.europa.eu/juris/doc?docid=200&doclang=EN"

/-- Processing raises exactly for the document with index 2. -/
def attemptFail2 : Nat → String → Option String :=
  fun idx _ => if idx = 2 then some "boom" else none

/-- Storage state after a run that processed `urlA` (docid 100). -/
def preSt : StorageState :=
  (process_documents_sequential demoHash demoParseBody attemptOk 0
    (initStorage "s" "t0") [urlA] 0).state

/-- No metadata filename with doc-index `sIdx + j + 1`, `j ≥ i`, is
registered yet in the dedup index: the filenames the rest of a batch run
will write are fresh. -/
def FreshFrom (sIdx : Nat) (st : StorageState) (i : Nat) : Prop :=
  ∀ j, i ≤ j → lookupAssoc st.hashes (metadataFilename (sIdx + j + 1)) = none

/-- One uninterrupted sequential run over the discovered links from a fresh
session (all attempts succeed, no ceiling). -/
def firstRun (hash : MetaRecord → String) (parseBody : String → String)
    (links : List String) (sid now : String) : BatchResult :=
  process_documents_sequential hash parseBody attemptOk 0 (initStorage sid now) links 0

/-- The re-run of the same links from the persisted-and-reloaded checkpoint
of the first run. -/
def rerun (hash : MetaRecord → String) (parseBody : String → String)
    (links : List String) (sid now : String) : BatchResult :=
  process_documents_sequential hash parseBody attemptOk 0
    (restoreStorage (firstRun hash parseBody links sid now).state) links 0

/-- A CELEX-identified EUR-Lex link (no `docid=` parameter). -/
def celexUrl : String :=
  "https://eur-lex.europa.eu/legal-content/EN/TXT/?uri=CELEX:32019R0001"

/-! ## Lemmas and claim theorems -/

example : extract_doc_id_from_url "https://curia.europa.eu/juris/document/document.jsf?docid=12345&doclang=EN" = some "12345" := by decide

example : extract_doc_id_from_url "https://eur-lex.europa.eu/legal-content/EN/TXT/?uri=CELEX:32019R0001" = none := by decide

example : findCelex "https://eur-lex.europa.eu/legal-content/EN/TXT/?uri=CELEX:32019R0001&rid=2".data = some "32019R0001" := by decide

example : findPathLang "https://eur-lex.europa.eu/legal-content/FR/TXT/".data = some "FR" := by decide

lemma dedupGo_eq_specDedupGo (lang : String) (urls : List String) :
    ∀ seen acc, dedupGo lang seen acc urls = acc.reverse ++ specDedupGo lang seen urls := by
  induction urls with
  | nil => intro seen acc; simp [dedupGo, specDedupGo]
  | cons url rest ih =>
    intro seen acc
    simp only [dedupGo, specDedupGo, dedupKey, specEmit]
    cases hd : findDocid url.data with
    | some d =>
      by_cases hmem : d ∈ seen
      · simp [hmem, ih]
      · simp [hmem, ih]
    | none =>
      cases hc : findCelex url.data with
      | some c =>
        by_cases hmem : c ∈ seen
        · simp [hmem, ih]
        · simp [hmem, ih]
      | none =>
        by_cases hmem : url ∈ seen
        · simp [hmem, ih]
        · simp [hmem, ih]

/-! ### Facts about the regex-search embeddings -/

lemma findDocid_ne_empty {l : List Char} {d : String} (h : findDocid l = some d) :
    d ≠ "" := by
  induction l with
  | nil => simp [findDocid] at h
  | cons c cs ih =>
    rw [findDocid] at h
    split at h
    · split at h
      · exact ih h
      · next hd =>
        cases h
        simpa [String.ext_iff] using hd
    · exact ih h

lemma findDocid_contains {l : List Char} {d : String} (h : findDocid l = some d) :
    containsL l "docid=".data = true := by
  induction l with
  | nil => simp [findDocid] at h
  | cons c cs ih =>
    rw [findDocid] at h
    rw [containsL]
    split at h
    · next hs => simp [hs]
    · next hs => simp [ih h]

lemma containsL_of_startsWith {l p : List Char} (h : startsWithL l p = true) :
    containsL l p = true := by
  cases l with
  | nil => exact h
  | cons c cs => rw [containsL]; simp [h]

lemma containsL_of_tail {c : Char} {cs p : List Char} (h : containsL cs p = true) :
    containsL (c :: cs) p = true := by
  rw [containsL]; simp [h]

lemma pathLangAt_startsWith {l : List Char} {lg : String}
    (h : pathLangAt l = some lg) :
    startsWithL l ('/' :: lg.data ++ ['/']) = true := by
  unfold pathLangAt at h
  split at h
  · next a b rest =>
    split at h
    · cases h
      simp [startsWithL]
    · cases h
  · cases h

lemma findPathLang_contains {l : List Char} {lg : String}
    (h : findPathLang l = some lg) :
    containsL l ('/' :: lg.data ++ ['/']) = true := by
  induction l with
  | nil => simp [findPathLang] at h
  | cons c cs ih =>
    rw [findPathLang] at h
    cases hp : pathLangAt (c :: cs) with
    | some s =>
      rw [hp] at h
      cases h
      exact containsL_of_startsWith (pathLangAt_startsWith hp)
    | none =>
      rw [hp] at h
      exact containsL_of_tail (ih h)

lemma digitChar_toNat {d : Nat} (h : d < 10) : (digitChar d).toNat = 48 + d := by
  interval_cases d <;> decide

lemma revVal_natDigitsRevFuel :
    ∀ fuel n, n < fuel → revVal (natDigitsRevFuel fuel n) = n := by
  intro fuel
  induction fuel with
  | zero => omega
  | succ fuel ih =>
    intro n hn
    rw [natDigitsRevFuel]
    by_cases h : n < 10
    · simp [h, revVal, digitChar_toNat h]
    · rw [if_neg h, revVal,
        ih (n / 10) (Nat.lt_of_lt_of_le
          (Nat.div_lt_self (by omega) (by omega)) (Nat.lt_succ_iff.mp hn)),
        digitChar_toNat (Nat.mod_lt n (by omega))]
      omega

lemma revVal_natDigitsRev (n : Nat) : revVal (natDigitsRev n) = n :=
  revVal_natDigitsRevFuel (n + 1) n (by omega)

lemma strVal_replicate_zero (k : Nat) (s : List Char) :
    strVal (List.replicate k '0' ++ s) = strVal s := by
  induction k with
  | zero => rfl
  | succ k ih =>
    rw [List.replicate_succ, List.cons_append]
    exact ih

lemma strVal_reverse (l : List Char) : strVal l.reverse = revVal l := by
  induction l with
  | nil => rfl
  | cons c cs ih =>
    rw [revVal, ← ih]
    rw [List.reverse_cons, strVal, List.foldl_append]
    rfl

lemma strVal_pad6 (n : Nat) : strVal (pad6 n) = n := by
  rw [pad6, strVal_replicate_zero, strVal_reverse, revVal_natDigitsRev]

lemma pad6_injective : Function.Injective pad6 := by
  intro m n h
  have := congrArg strVal h
  rwa [strVal_pad6, strVal_pad6] at this

lemma metadataFilename_injective : Function.Injective metadataFilename := by
  intro m n h
  have hdata := congrArg String.data h
  simp only [metadataFilename, List.cons_append, List.nil_append,
    List.cons.injEq, true_and] at hdata
  exact pad6_injective (List.append_cancel_right hdata)

example : metadataFilename 7 = "doc_000007.json" := by decide

example : metadataFilename 1234567 = "doc_1234567.json" := by decide

/-! ## Association-list and filesystem lemmas -/

lemma lookupAssoc_filter_ne {l : List (String × String)} {p q : String}
    (h : q ≠ p) :
    lookupAssoc (l.filter (fun x => x.1 ≠ p)) q = lookupAssoc l q := by
  induction l with
  | nil => rfl
  | cons a rest ih =>
    by_cases hk : a.1 = p
    · rw [List.filter_cons_of_neg (by simp [hk])]
      rw [ih]
      have : ¬ a.1 = q := by rw [hk]; exact fun he => h he.symm
      rw [lookupAssoc, if_neg this]
    · rw [List.filter_cons_of_pos (by simp [hk])]
      by_cases hq : a.1 = q
      · rw [lookupAssoc, if_pos hq]
        conv_rhs => rw [show (a :: rest) = a :: rest from rfl, lookupAssoc, if_pos hq]
      · rw [lookupAssoc, if_neg hq, ih]
        conv_rhs => rw [lookupAssoc, if_neg hq]

lemma lookupAssoc_setAssoc_self (l : List (String × String)) (k v : String) :
    lookupAssoc (setAssoc l k v) k = some v := by
  rw [setAssoc, lookupAssoc, if_pos rfl]

lemma lookupAssoc_setAssoc_ne {l : List (String × String)} {k q : String}
    (h : q ≠ k) (v : String) :
    lookupAssoc (setAssoc l k v) q = lookupAssoc l q := by
  rw [setAssoc, lookupAssoc, if_neg (fun he => h he.symm)]
  exact lookupAssoc_filter_ne h

lemma fsRead_remove_self (fs : FileSys) (p : String) :
    fsRead (fsRemove fs p) p = none := by
  induction fs with
  | nil => rfl
  | cons a rest ih =>
    by_cases hk : a.1 = p
    · rw [fsRemove, List.filter_cons_of_neg (by simp [hk])]
      exact ih
    · rw [fsRemove, List.filter_cons_of_pos (by simp [hk])]
      rw [fsRead, lookupAssoc, if_neg hk]
      exact ih

lemma fsRead_remove_ne {fs : FileSys} {p q : String} (h : q ≠ p) :
    fsRead (fsRemove fs p) q = fsRead fs q :=
  lookupAssoc_filter_ne h

lemma fsRead_write_self (fs : FileSys) (p c : String) :
    fsRead (fsWrite fs p c) p = some c :=
  lookupAssoc_setAssoc_self fs p c

lemma fsRead_write_ne {fs : FileSys} {p q : String} (h : q ≠ p) (c : String) :
    fsRead (fsWrite fs p c) q = fsRead fs q :=
  lookupAssoc_setAssoc_ne h c

lemma tmpName_ne (p : String) : tmpName p ≠ p := by
  intro h
  have hlen := congrArg String.length h
  rw [tmpName, String.length_append] at hlen
  have h4 : ".tmp".length = 4 := rfl
  omega

/-- C4. Atomic checkpoint persistence: `save_checkpoint` writes the
serialized state to `<path>.tmp` and moves it into place only when the
write completed without exception; on a failure mid-write the temp file is
removed and the previously persisted checkpoint file is byte-for-byte
unchanged and readable. -/
theorem atomic_checkpoint_persistence (fs : FileSys) (path : String)
    (cd : CheckpointData) (now w : String) :
    fsRead (save_checkpoint fs path cd now (some w)) path = fsRead fs path
    ∧ fsRead (save_checkpoint fs path cd now (some w)) (tmpName path) = none
    ∧ fsRead (save_checkpoint fs path cd now none) path
        = some (serializeCheckpoint { cd with last_update := now })
    ∧ fsRead (save_checkpoint fs path cd now none) (tmpName path) = none := by
  refine ⟨?_, ?_, ?_, ?_⟩
  · rw [save_checkpoint, atomicFileWriter,
      fsRead_remove_ne (fun h => tmpName_ne path h.symm),
      fsRead_write_ne (fun h => tmpName_ne path h.symm)]
  · rw [save_checkpoint, atomicFileWriter, fsRead_remove_self]
  · rw [save_checkpoint, atomicFileWriter,
      fsRead_remove_ne (fun h => tmpName_ne path h.symm),
      fsRead_write_self]
  · rw [save_checkpoint, atomicFileWriter, fsRead_remove_self]

/-! ## Characterization of `save_document_metadata` -/

lemma save_document_metadata_dup {hash : MetaRecord → String} {st : StorageState}
    {m : MetaRecord} {i : Nat}
    (h : is_duplicate st.hashes (metadataFilename i) (hash m) = true) :
    save_document_metadata hash st m i = st := by
  rw [save_document_metadata, if_pos h]

lemma save_document_metadata_not_dup {hash : MetaRecord → String} {st : StorageState}
    {m : MetaRecord} {i : Nat}
    (h : is_duplicate st.hashes (metadataFilename i) (hash m) = false) :
    (save_document_metadata hash st m i).hashes
        = setAssoc st.hashes (metadataFilename i) (hash m)
    ∧ (save_document_metadata hash st m i).metaWrites
        = st.metaWrites ++ [metadataFilename i]
    ∧ (save_document_metadata hash st m i).errorLog = st.errorLog := by
  rw [save_document_metadata, if_neg (by simp [h])]
  cases hcd : st.checkpoint_data with
  | none => simp [hcd]
  | some cd =>
    cases hd : m.doc_id with
    | none => simp [hcd, hd]
    | some d =>
      by_cases hne : d ≠ ""
      · simp [hcd, hd, hne]
      · simp [hcd, hd, hne]

lemma save_document_metadata_checkpoint_falsy {hash : MetaRecord → String}
    {st : StorageState} {m : MetaRecord} {i : Nat}
    (h : truthyOptStr m.doc_id = false) :
    (save_document_metadata hash st m i).checkpoint_data = st.checkpoint_data := by
  rw [save_document_metadata]
  by_cases hdup : is_duplicate st.hashes (metadataFilename i) (hash m) = true
  · rw [if_pos hdup]
  · rw [if_neg hdup]
    cases hcd : st.checkpoint_data with
    | none => simp [hcd]
    | some cd =>
      cases hd : m.doc_id with
      | none => simp [hcd, hd]
      | some d =>
        have hde : d = "" := by simpa [truthyOptStr, hd] using h
        simp [hcd, hd, hde]

lemma save_document_metadata_checkpoint_truthy {hash : MetaRecord → String}
    {st : StorageState} {m : MetaRecord} {i : Nat} {cd : CheckpointData} {d : String}
    (hdup : is_duplicate st.hashes (metadataFilename i) (hash m) = false)
    (hcd : st.checkpoint_data = some cd) (hd : m.doc_id = some d) (hne : d ≠ "") :
    (save_document_metadata hash st m i).checkpoint_data
      = some { cd with
               processed_documents := cd.processed_documents + 1
               processed_doc_ids := insertId d cd.processed_doc_ids } := by
  rw [save_document_metadata, if_neg (by simp [hdup])]
  simp [hcd, hd, hne]

lemma save_document_metadata_idem (hash : MetaRecord → String) (st : StorageState)
    (m : MetaRecord) (i : Nat) :
    save_document_metadata hash (save_document_metadata hash st m i) m i
      = save_document_metadata hash st m i := by
  by_cases hdup : is_duplicate st.hashes (metadataFilename i) (hash m) = true
  · rw [save_document_metadata_dup hdup]
    exact save_document_metadata_dup hdup
  · have hfalse : is_duplicate st.hashes (metadataFilename i) (hash m) = false := by
      simpa using hdup
    have hh := (save_document_metadata_not_dup hfalse).1
    apply save_document_metadata_dup
    rw [hh, is_duplicate, lookupAssoc_setAssoc_self]
    simp

/-- C7. Dedup-index idempotence: the duplicate check is true iff the index
already maps that exact filename to that exact content hash; saving an
identical metadata record twice under the same filename performs exactly
one disk write — the second call is a complete no-op (no write, no index
update, checkpoint counters unchanged). -/
theorem dedup_index_idempotence :
    (∀ (hashes : List (String × String)) (f h : String),
      is_duplicate hashes f h = true ↔ lookupAssoc hashes f = some h)
    ∧ (∀ (hash : MetaRecord → String) (st : StorageState) (m : MetaRecord) (i : Nat),
        save_document_metadata hash (save_document_metadata hash st m i) m i
          = save_document_metadata hash st m i)
    ∧ demoSave1.metaWrites = [metadataFilename 1]
    ∧ demoSave2 = demoSave1 := by
  refine ⟨?_, save_document_metadata_idem, by decide, ?_⟩
  · intro hashes f h
    rw [is_duplicate]
    cases hl : lookupAssoc hashes f with
    | none => simp
    | some h' => simp
  · exact save_document_metadata_idem demoHash (initStorage "sess" "t0") demoRecord 1

/-- C10. Frame property of metadata saves without an ID: when the record's
`doc_id` is `None` or empty (as for every URL lacking a `docid=` parameter,
where `_extract_doc_id_from_url` returns `None`), the metadata file is
still written and the dedup index updated, but the checkpoint state is left
entirely unchanged — the counter does not move and no ID is added, so the
document is never reported as processed. -/
theorem metadata_save_without_id_frame
    (hash : MetaRecord → String) (st : StorageState) (m : MetaRecord) (i : Nat)
    (hfalsy : truthyOptStr m.doc_id = false) :
    (∀ url : String, containsS url "docid=" = false → extract_doc_id_from_url url = none)
    ∧ (save_document_metadata hash st m i).checkpoint_data = st.checkpoint_data
    ∧ checkpointDocs (save_document_metadata hash st m i) = checkpointDocs st
    ∧ (∀ d, is_document_processed (save_document_metadata hash st m i) d
          = is_document_processed st d)
    ∧ (is_duplicate st.hashes (metadataFilename i) (hash m) = false →
        (save_document_metadata hash st m i).metaWrites
            = st.metaWrites ++ [metadataFilename i]
        ∧ lookupAssoc (save_document_metadata hash st m i).hashes (metadataFilename i)
            = some (hash m)) := by
  have hckpt : (save_document_metadata hash st m i).checkpoint_data = st.checkpoint_data :=
    save_document_metadata_checkpoint_falsy hfalsy
  refine ⟨?_, hckpt, ?_, ?_, ?_⟩
  · intro url hc
    cases he : extract_doc_id_from_url url with
    | none => rfl
    | some d =>
      exfalso
      have hfd : findDocid url.data = some d := he
      have := findDocid_contains hfd
      rw [show containsL url.data "docid=".data = containsS url "docid=" from rfl, hc]
        at this
      exact Bool.false_ne_true this
  · rw [checkpointDocs, checkpointDocs, hckpt]
  · intro d
    rw [is_document_processed, is_document_processed, hckpt]
  · intro hdup
    exact ⟨(save_document_metadata_not_dup hdup).2.1, by
      rw [(save_document_metadata_not_dup hdup).1, lookupAssoc_setAssoc_self]⟩

/-- Witness for C10 at a concrete CELEX-identified record. -/
theorem metadata_save_without_id_frame_witness :
    extract_doc_id_from_url
        "https://eur-lex.europa.eu/legal-content/EN/TXT/?uri=CELEX:32019R0001" = none
    ∧ (save_document_metadata demoHash (initStorage "s" "t0") noIdRecord 3).checkpoint_data
        = (initStorage "s" "t0").checkpoint_data
    ∧ (save_document_metadata demoHash (initStorage "s" "t0") noIdRecord 3).metaWrites
        = [metadataFilename 3] := by
  have h := metadata_save_without_id_frame demoHash (initStorage "s" "t0") noIdRecord 3
    (by decide)
  exact ⟨h.1 _ (by decide), h.2.1,
    by rw [(h.2.2.2.2 (by decide)).1]; rfl⟩

/-- C8 counterexample: the CURIA `parse_document` has no exception handler
(curia_parser.py:186-246), so an internal extraction failure propagates to
the caller instead of yielding a minimal record — refuting, for the CURIA
parser, the claim that `parse_document` never raises. -/
theorem parser_totality_counterexample :
    curia_parse_document "<html></html>" "https://curia.europa.eu/doc?docid=1"
        (some "1") "html_parse" (Except.error "extraction failure")
      = Except.error "extraction failure" := rfl

/-- C8 (amended). The EUR-Lex `parse_document` never propagates an internal
failure: it returns the minimal record of eurlex_parser.py:264-270 (identity
fields preserved, content quality score 0.0); the CURIA `parse_document`,
having no handler, propagates the failure to its caller. -/
theorem parser_error_handling (html url : String) (doc_id : Option String)
    (processing_method : String) (e : String) :
    eurlex_parse_document html url doc_id processing_method (Except.error e)
      = { doc_id := doc_id
          url := some url
          html_length := html.length
          processing_method := some processing_method
          content_quality_score := 0 }
    ∧ (eurlex_parse_document html url doc_id processing_method
        (Except.error e)).content_quality_score = 0
    ∧ curia_parse_document html url doc_id processing_method (Except.error e)
        = Except.error e :=
  ⟨rfl, rfl, rfl⟩

/-- C6. Language filtering: with a configured preferred language, an
EUR-Lex-style URL is included iff it contains `/{LANG}/` or no `/XX/`
language segment at all; any other URL is included iff it contains
`doclang={LANG}` or no `doclang=` parameter at all; with no preferred
language every URL is included.  Concretely, `/FR/` is excluded under
preferred language `EN` while `/EN/` or no language segment is included. -/
theorem language_filtering (lang url : String) (hne : lang ≠ "") :
    (∀ u, should_include_document "" u = true)
    ∧ (containsS url "eur-lex.europa.eu" = true →
        (should_include_document lang url = true ↔
          containsS url ("/" ++ lang ++ "/") = true ∨ findPathLang url.data = none))
    ∧ (containsS url "eur-lex.europa.eu" = false →
        (should_include_document lang url = true ↔
          containsS url ("doclang=" ++ lang) = true
          ∨ containsS url "doclang=" = false))
    ∧ should_include_document "EN" "https://eur-lex.europa.eu/legal-content/FR/TXT/" = false
    ∧ should_include_document "EN" "https://eur-lex.europa.eu/legal-content/EN/TXT/" = true
    ∧ should_include_document "EN" "https://eur-lex.europa.eu/homepage" = true := by
  refine ⟨?_, ?_, ?_, by decide, by decide, by decide⟩
  · intro u
    rw [should_include_document, if_pos rfl]
  · intro he
    rw [should_include_document, if_neg hne]
    simp only [he, if_true]
    cases hc : containsS url ("/" ++ lang ++ "/") with
    | true => simp
    | false =>
      simp only [Bool.false_eq_true, false_or]
      cases hp : findPathLang url.data with
      | none => simp
      | some l =>
        have hlne : l ≠ lang := by
          intro hl
          have hcl := findPathLang_contains hp
          rw [hl] at hcl
          have hdata : ("/" ++ lang ++ "/").data = '/' :: lang.data ++ ['/'] := by
            simp [String.data_append]
          rw [show containsL url.data ('/' :: lang.data ++ ['/'])
              = containsS url ("/" ++ lang ++ "/") by rw [containsS, hdata], hc] at hcl
          exact Bool.false_ne_true hcl
        simp [hlne]
  · intro he
    rw [should_include_document, if_neg hne]
    simp only [he, Bool.false_eq_true, if_false]
    cases hc1 : containsS url ("doclang=" ++ lang) with
    | true => simp
    | false =>
      simp only [Bool.false_eq_true, false_or]
      cases hc2 : containsS url "doclang=" with
      | true => simp
      | false => simp

/-- Witness for C6 at preferred language `EN`. -/
theorem language_filtering_witness :
    should_include_document "EN" "https://eur-lex.europa.eu/legal-content/FR/TXT/" = false
    ∧ should_include_document "EN" "https://eur-lex.europa.eu/legal-content/EN/TXT/" = true := by
  have h := language_filtering "EN" "https://eur-lex.europa.eu/legal-content/FR/TXT/"
    (by decide)
  exact ⟨h.2.2.2.1, h.2.2.2.2.1⟩

/-- C5. URL deduplication: the source's `_deduplicate_urls` coincides with
the spec's normalization (identity key in priority order docid / CELEX /
full URL, first occurrence of a key wins, preferred language appended when
the key came from a docid and no `doclang=` parameter is present), and on
the spec's example input with preferred language `EN` exactly the
`docid=5&doclang=EN` URL and the `docid=7` URL augmented with
`&doclang=EN` are emitted. -/
theorem url_deduplication :
    (∀ lang urls, deduplicate_urls lang urls = specDedup lang urls)
    ∧ deduplicate_urls "EN"
        ["https://curia.europa.eu/juris/document/document.jsf?docid=5&doclang=EN",
         "https://curia.europa.eu/juris/document/document.jsf?docid=5&doclang=FR",
         "https://curia.europa.eu/juris/document/document.jsf?docid=7"]
      = ["https://curia.europa.eu/juris/document/document.jsf?docid=5&doclang=EN",
         "https://curia.europa.eu/juris/document/document.jsf?docid=7&doclang=EN"] := by
  refine ⟨fun lang urls => ?_, by decide⟩
  rw [deduplicate_urls, specDedup]
  simpa using dedupGo_eq_specDedupGo lang urls [] []

/-! ## Reachable checkpoint states (C3) -/

lemma mem_insertId {a d : String} {ids : List String} :
    a ∈ insertId d ids ↔ a = d ∨ a ∈ ids := by
  rw [insertId]
  split
  · next h => constructor
              · exact fun ha => Or.inr ha
              · rintro (rfl | ha)
                · exact h
                · exact ha
  · simp

lemma insertId_nodup {d : String} {ids : List String} (h : ids.Nodup) :
    (insertId d ids).Nodup := by
  rw [insertId]
  split
  · exact h
  · next hmem => exact List.nodup_cons.mpr ⟨hmem, h⟩

lemma insertId_length_le (d : String) (ids : List String) :
    (insertId d ids).length ≤ ids.length + 1 := by
  rw [insertId]
  split
  · omega
  · simp

lemma listToSet_nodup (l : List String) : (listToSet l).Nodup := by
  induction l with
  | nil => exact List.nodup_nil
  | cons a rest ih => exact insertId_nodup ih

lemma listToSet_cons (a : String) (l : List String) :
    listToSet (a :: l) = insertId a (listToSet l) := rfl

lemma listToSet_length_le (l : List String) : (listToSet l).length ≤ l.length := by
  induction l with
  | nil => simp [listToSet]
  | cons a rest ih =>
    rw [listToSet_cons]
    have := insertId_length_le a (listToSet rest)
    simp only [List.length_cons]
    omega

lemma mem_listToSet {a : String} {l : List String} :
    a ∈ listToSet l ↔ a ∈ l := by
  induction l with
  | nil => simp [listToSet]
  | cons b rest ih =>
    rw [listToSet, List.foldr_cons]
    rw [show rest.foldr insertId [] = listToSet rest from rfl] at *
    rw [mem_insertId, ih]
    simp

lemma save_checkpoint_cases (hash : MetaRecord → String) (st : StorageState)
    (m : MetaRecord) (i : Nat) :
    (save_document_metadata hash st m i).checkpoint_data = st.checkpoint_data
    ∨ ∃ cd d, st.checkpoint_data = some cd ∧ m.doc_id = some d ∧ d ≠ "" ∧
        (save_document_metadata hash st m i).checkpoint_data
          = some { cd with
                   processed_documents := cd.processed_documents + 1
                   processed_doc_ids := insertId d cd.processed_doc_ids } := by
  by_cases hdup : is_duplicate st.hashes (metadataFilename i) (hash m) = true
  · left; rw [save_document_metadata_dup hdup]
  · have hfalse : is_duplicate st.hashes (metadataFilename i) (hash m) = false := by
      simpa using hdup
    cases hcd : st.checkpoint_data with
    | none =>
      left
      rw [save_document_metadata, if_neg (by simp [hfalse])]
      simp [hcd]
    | some cd =>
      cases hd : m.doc_id with
      | none =>
        left
        rw [save_document_metadata_checkpoint_falsy (by simp [truthyOptStr, hd])]
        exact hcd
      | some d =>
        by_cases hne : d = ""
        · left
          rw [save_document_metadata_checkpoint_falsy
            (by simp [truthyOptStr, hd, hne])]
          exact hcd
        · right
          exact ⟨cd, d, rfl, rfl, hne,
            save_document_metadata_checkpoint_truthy hfalse hcd hd hne⟩

lemma checkpointIds_eq_of_data {s t : StorageState}
    (h : t.checkpoint_data = s.checkpoint_data) : checkpointIds t = checkpointIds s := by
  rw [checkpointIds, checkpointIds, h]

lemma checkpointDocs_eq_of_data {s t : StorageState}
    (h : t.checkpoint_data = s.checkpoint_data) : checkpointDocs t = checkpointDocs s := by
  rw [checkpointDocs, checkpointDocs, h]

lemma checkpointIds_of_data {s : StorageState} {cd : CheckpointData}
    (h : s.checkpoint_data = some cd) : checkpointIds s = cd.processed_doc_ids := by
  rw [checkpointIds, h]

lemma checkpointDocs_of_data {s : StorageState} {cd : CheckpointData}
    (h : s.checkpoint_data = some cd) : checkpointDocs s = cd.processed_documents := by
  rw [checkpointDocs, h]

lemma update_page_progress_data_none {s : StorageState} (n : Nat) (url : String)
    (h : s.checkpoint_data = none) : update_page_progress s n url = s := by
  rw [update_page_progress, h]

lemma update_page_progress_data_some {s : StorageState} {cd : CheckpointData}
    (n : Nat) (url : String) (h : s.checkpoint_data = some cd) :
    (update_page_progress s n url).checkpoint_data
      = some { cd with processed_pages := n, current_page_url := some url } := by
  rw [update_page_progress, h]

lemma restoreStorage_data_none {s : StorageState} (h : s.checkpoint_data = none) :
    restoreStorage s = s := by
  cases s with
  | mk cdata hs w e =>
    simp only at h
    rw [restoreStorage]
    simp [h]

lemma restoreStorage_data_some {s : StorageState} {cd : CheckpointData}
    (h : s.checkpoint_data = some cd) :
    (restoreStorage s).checkpoint_data = some (restoreCheckpoint cd) := by
  rw [restoreStorage, h]
  rfl

lemma storageStep_mono {hash : MetaRecord → String} {s t : StorageState}
    (h : StorageStep hash s t) :
    (∀ d, d ∈ checkpointIds s → d ∈ checkpointIds t)
    ∧ checkpointDocs s ≤ checkpointDocs t := by
  cases h with
  | save_meta m i =>
    rcases save_checkpoint_cases hash s m i with hsame | ⟨cd, d, hcd, hd, hne, hnew⟩
    · rw [checkpointIds_eq_of_data hsame, checkpointDocs_eq_of_data hsame]
      exact ⟨fun x hx => hx, le_refl _⟩
    · constructor
      · intro x hx
        rw [checkpointIds_of_data hnew]
        rw [checkpointIds_of_data hcd] at hx
        exact mem_insertId.mpr (Or.inr hx)
      · rw [checkpointDocs_of_data hnew, checkpointDocs_of_data hcd]
        exact Nat.le_succ _
  | page_progress n url =>
    cases hcd : s.checkpoint_data with
    | none =>
      rw [update_page_progress_data_none n url hcd]
      exact ⟨fun x hx => hx, le_refl _⟩
    | some cd =>
      constructor
      · intro x hx
        rw [checkpointIds_of_data (update_page_progress_data_some n url hcd)]
        rw [checkpointIds_of_data hcd] at hx
        exact hx
      · rw [checkpointDocs_of_data (update_page_progress_data_some n url hcd),
          checkpointDocs_of_data hcd]
  | error_info i url e =>
    have hdata : (save_error_info s i url e).checkpoint_data = s.checkpoint_data := rfl
    rw [checkpointIds_eq_of_data hdata, checkpointDocs_eq_of_data hdata]
    exact ⟨fun x hx => hx, le_refl _⟩
  | persist_resume =>
    cases hcd : s.checkpoint_data with
    | none =>
      rw [restoreStorage_data_none hcd]
      exact ⟨fun x hx => hx, le_refl _⟩
    | some cd =>
      constructor
      · intro x hx
        rw [checkpointIds_of_data (restoreStorage_data_some hcd)]
        rw [checkpointIds_of_data hcd] at hx
        exact mem_listToSet.mpr hx
      · rw [checkpointDocs_of_data (restoreStorage_data_some hcd),
          checkpointDocs_of_data hcd]
        exact le_refl _

lemma storageInv_step {hash : MetaRecord → String} {s t : StorageState}
    (hstep : StorageStep hash s t)
    (hinv : (checkpointIds s).Nodup ∧ (checkpointIds s).length ≤ checkpointDocs s) :
    (checkpointIds t).Nodup ∧ (checkpointIds t).length ≤ checkpointDocs t := by
  obtain ⟨hnd, hle⟩ := hinv
  cases hstep with
  | save_meta m i =>
    rcases save_checkpoint_cases hash s m i with hsame | ⟨cd, d, hcd, hd, hne, hnew⟩
    · rw [checkpointIds_eq_of_data hsame, checkpointDocs_eq_of_data hsame]
      exact ⟨hnd, hle⟩
    · rw [checkpointIds_of_data hnew, checkpointDocs_of_data hnew]
      rw [checkpointIds_of_data hcd] at hnd hle
      rw [checkpointDocs_of_data hcd] at hle
      refine ⟨insertId_nodup hnd, ?_⟩
      have := insertId_length_le d cd.processed_doc_ids
      simp only
      omega
  | page_progress n url =>
    cases hcd : s.checkpoint_data with
    | none =>
      rw [update_page_progress_data_none n url hcd]
      exact ⟨hnd, hle⟩
    | some cd =>
      rw [checkpointIds_of_data (update_page_progress_data_some n url hcd),
        checkpointDocs_of_data (update_page_progress_data_some n url hcd)]
      rw [checkpointIds_of_data hcd] at hnd hle
      rw [checkpointDocs_of_data hcd] at hle
      exact ⟨hnd, hle⟩
  | error_info i url e =>
    have hdata : (save_error_info s i url e).checkpoint_data = s.checkpoint_data := rfl
    rw [checkpointIds_eq_of_data hdata, checkpointDocs_eq_of_data hdata]
    exact ⟨hnd, hle⟩
  | persist_resume =>
    cases hcd : s.checkpoint_data with
    | none =>
      rw [restoreStorage_data_none hcd]
      exact ⟨hnd, hle⟩
    | some cd =>
      rw [checkpointIds_of_data (restoreStorage_data_some hcd),
        checkpointDocs_of_data (restoreStorage_data_some hcd), restoreCheckpoint]
      rw [checkpointIds_of_data hcd] at hnd hle
      rw [checkpointDocs_of_data hcd] at hle
      refine ⟨listToSet_nodup _, ?_⟩
      have := listToSet_length_le cd.processed_doc_ids
      simp only
      omega

/-- C3 counterexample: on a state reachable through the storage manager's
own operations (including the persist/resume round trip), a page-progress
update DECREASES `processed_pages` from 2 to 1 — refuting the claim that
`processed_pages` is monotonically non-decreasing across every
state-mutating operation, in particular after a resume. -/
theorem checkpoint_pages_not_monotone :
    ReachableStorage demoHash pagesTrace3
    ∧ checkpointPages pagesTrace2 = 2
    ∧ checkpointPages pagesTrace3 = 1
    ∧ ¬ checkpointPages pagesTrace2 ≤ checkpointPages pagesTrace3 := by
  refine ⟨?_, by decide, by decide, by decide⟩
  exact ReachableStorage.step
    (ReachableStorage.step
      (ReachableStorage.step
        (ReachableStorage.step (ReachableStorage.init "s1" "t0")
          (StorageStep.page_progress _ 1 "https://curia.europa.eu/list?page=1"))
        (StorageStep.page_progress _ 2 "https://curia.europa.eu/list?page=2"))
      (StorageStep.persist_resume _))
    (StorageStep.page_progress _ 1 "https://curia.europa.eu/list?page=1")

/-- C3 (amended). Checkpoint-state invariant: in every reachable state the
ID set is duplicate-free and its size is at most `processed_documents`;
every storage operation only grows the ID set (no ID is ever removed) and
never decreases `processed_documents`; `update_page_progress`, however,
ASSIGNS `processed_pages` to its page-number argument, so that counter is
non-decreasing only while the supplied page numbers are — it drops back
when a resumed run restarts at page 1. -/
theorem checkpoint_state_invariant (hash : MetaRecord → String) :
    (∀ s, ReachableStorage hash s →
      (checkpointIds s).Nodup ∧ (checkpointIds s).length ≤ checkpointDocs s)
    ∧ (∀ s t, StorageStep hash s t →
        (∀ d, d ∈ checkpointIds s → d ∈ checkpointIds t)
        ∧ checkpointDocs s ≤ checkpointDocs t)
    ∧ (∀ (s : StorageState) (cd : CheckpointData) (n : Nat) (u : String),
        s.checkpoint_data = some cd →
        checkpointPages (update_page_progress s n u) = n) := by
  refine ⟨?_, fun s t h => storageStep_mono h, ?_⟩
  · intro s hreach
    induction hreach with
    | init sid now => exact ⟨List.nodup_nil, le_refl 0⟩
    | step hr hstep ih => exact storageInv_step hstep ih
  · intro s cd n u hcd
    rw [checkpointPages, update_page_progress_data_some n u hcd]

/-- Witness for C3 on a concrete reachable state and a concrete step. -/
theorem checkpoint_state_invariant_witness :
    ((checkpointIds pagesTrace1).Nodup
      ∧ (checkpointIds pagesTrace1).length ≤ checkpointDocs pagesTrace1)
    ∧ checkpointDocs (initStorage "s1" "t0") ≤ checkpointDocs pagesTrace1
    ∧ checkpointPages pagesTrace1 = 1 := by
  have h := checkpoint_state_invariant demoHash
  refine ⟨?_, ?_, ?_⟩
  · exact h.1 pagesTrace1
      (ReachableStorage.step (ReachableStorage.init "s1" "t0")
        (StorageStep.page_progress _ 1 "https://curia.europa.eu/list?page=1"))
  · exact (h.2.1 (initStorage "s1" "t0") pagesTrace1
      (StorageStep.page_progress _ 1 "https://curia.europa.eu/list?page=1")).2
  · exact h.2.2 (initStorage "s1" "t0") _ 1 "https://curia.europa.eu/list?page=1" rfl

/-! ## Document ceiling (C2) -/

lemma seqGo_count_le (hash : MetaRecord → String) (parseBody : String → String)
    (attempt : Nat → String → Option String) (maxDocs startIndex : Nat)
    (hm : maxDocs ≠ 0) :
    ∀ (links : List String) (st : StorageState) (i c : Nat) (acc : List DocOutcome),
      c ≤ maxDocs →
      (seqGo hash parseBody attempt maxDocs startIndex st i c acc links).processed_count
        ≤ maxDocs := by
  intro links
  induction links with
  | nil => intro st i c acc hc; exact hc
  | cons link rest ih =>
    intro st i c acc hc
    rw [seqGo]
    by_cases hskip : skipCheck st link = true
    · rw [if_pos hskip]
      exact ih _ _ _ _ hc
    · rw [if_neg hskip]
      by_cases hceil : maxDocs ≠ 0 ∧ c ≥ maxDocs
      · rw [if_pos hceil]
        exact hc
      · rw [if_neg hceil]
        have hclt : c < maxDocs := by
          rcases Decidable.not_and_iff_or_not.mp hceil with h1 | h1
          · exact absurd hm h1
          · omega
        cases hatt : attempt (startIndex + i + 1) link with
        | none => exact ih _ _ _ _ (by omega)
        | some e => exact ih _ _ _ _ hc

/-- C2 counterexample: with `max_documents = 3`, page 1 yielding 2
documents and page 2 yielding 10 links, the run dispatches 2 + 3 = 5
documents in total — the per-batch counter is reset on every page, so
documents processed on earlier pages do NOT count toward the in-page skip
(`running_total + dispatched >= max_documents` would have allowed only one
dispatch on page 2), refuting ceiling enforcement across pages. -/
theorem document_ceiling_counterexample :
    (process_listing_pages demoHash demoParseBody attemptOk 3 (fun _ => "p")
        (initStorage "s" "t0") [linksPage1, links10]).total = 5
    ∧ ¬ (process_listing_pages demoHash demoParseBody attemptOk 3 (fun _ => "p")
        (initStorage "s" "t0") [linksPage1, links10]).total ≤ 3
    ∧ (process_documents_sequential demoHash demoParseBody attemptOk 3
        (process_documents_sequential demoHash demoParseBody attemptOk 3
          (initStorage "s" "t0") linksPage1 0).state links10 2).processed_count = 3 := by
  refine ⟨by decide, by decide, by decide⟩

/-- C2 (amended). Document-ceiling enforcement within a batch: the
sequential processor breaks once the PER-BATCH success counter reaches a
truthy `max_documents` (the running total only names files); hence with
`max_documents = 3` and 10 discovered links exactly 3 documents are
dispatched and the loop halts before exhausting the page.  Across pages the
ceiling is only checked between batches, so it can be overshot (see the
counterexample). -/
theorem document_ceiling_enforcement (hash : MetaRecord → String)
    (parseBody : String → String) (attempt : Nat → String → Option String)
    (maxDocs startIndex : Nat) (st : StorageState) (links : List String)
    (hm : maxDocs ≠ 0) :
    (process_documents_sequential hash parseBody attempt maxDocs st links
        startIndex).processed_count ≤ maxDocs
    ∧ (process_documents_sequential demoHash demoParseBody attemptOk 3
        (initStorage "s" "t0") links10 0).processed_count = 3
    ∧ (process_documents_sequential demoHash demoParseBody attemptOk 3
        (initStorage "s" "t0") links10 0).outcomes.length = 3
    ∧ ¬ links10.length ≤ 3 := by
  refine ⟨?_, by decide, by decide, by decide⟩
  exact seqGo_count_le hash parseBody attempt maxDocs startIndex hm links st 0 0 []
    (Nat.zero_le _)

/-- Witness for C2 at a concrete batch. -/
theorem document_ceiling_enforcement_witness :
    (process_documents_sequential demoHash demoParseBody attemptOk 3
        (initStorage "s" "t0") links10 0).processed_count ≤ 3 :=
  (document_ceiling_enforcement demoHash demoParseBody attemptOk 3 0
    (initStorage "s" "t0") links10 (by decide)).1

/-! ## Per-document failure isolation (C9) -/

lemma save_document_metadata_errorLog (hash : MetaRecord → String)
    (st : StorageState) (m : MetaRecord) (i : Nat) :
    (save_document_metadata hash st m i).errorLog = st.errorLog := by
  by_cases hdup : is_duplicate st.hashes (metadataFilename i) (hash m) = true
  · rw [save_document_metadata_dup hdup]
  · exact (save_document_metadata_not_dup (by simpa using hdup)).2.2

lemma seqGo_errorLog_mono (hash : MetaRecord → String) (parseBody : String → String)
    (attempt : Nat → String → Option String) (maxDocs startIndex : Nat) :
    ∀ (links : List String) (st : StorageState) (i c : Nat) (acc : List DocOutcome)
      (x : Nat × String × String), x ∈ st.errorLog →
      x ∈ (seqGo hash parseBody attempt maxDocs startIndex st i c acc links).state.errorLog := by
  intro links
  induction links with
  | nil => intro st i c acc x hx; exact hx
  | cons link rest ih =>
    intro st i c acc x hx
    rw [seqGo]
    by_cases hskip : skipCheck st link = true
    · rw [if_pos hskip]
      exact ih _ _ _ _ _ hx
    · rw [if_neg hskip]
      by_cases hceil : maxDocs ≠ 0 ∧ c ≥ maxDocs
      · rw [if_pos hceil]
        exact hx
      · rw [if_neg hceil]
        cases hatt : attempt (startIndex + i + 1) link with
        | none =>
          apply ih
          rw [save_document_metadata_errorLog]
          exact hx
        | some e =>
          apply ih
          exact List.mem_append_left _ hx

lemma seqGo_isolation (hash : MetaRecord → String) (parseBody : String → String)
    (attempt : Nat → String → Option String) (startIndex : Nat) :
    ∀ (links : List String) (st : StorageState) (i c : Nat) (acc : List DocOutcome),
      ((seqGo hash parseBody attempt 0 startIndex st i c acc links).outcomes.map
          DocOutcome.link
        = acc.reverse.map DocOutcome.link ++ links)
      ∧ ((seqGo hash parseBody attempt 0 startIndex st i c acc links).processed_count
            + (acc.filter DocOutcome.isSuccess).length
          = c + ((seqGo hash parseBody attempt 0 startIndex st i c acc links).outcomes.filter
              DocOutcome.isSuccess).length)
      ∧ (∀ idx l e,
          DocOutcome.failed idx l e
              ∈ (seqGo hash parseBody attempt 0 startIndex st i c acc links).outcomes →
          DocOutcome.failed idx l e ∈ acc
          ∨ (idx, l, e)
              ∈ (seqGo hash parseBody attempt 0 startIndex st i c acc links).state.errorLog) := by
  intro links
  induction links with
  | nil =>
    intro st i c acc
    refine ⟨by simp [seqGo], ?_, ?_⟩
    · rw [seqGo]
      simp [List.filter_reverse]
    · intro idx l e hmem
      rw [seqGo] at hmem
      exact Or.inl (List.mem_reverse.mp hmem)
  | cons link rest ih =>
    intro st i c acc
    rw [seqGo]
    have hceil : ¬ ((0 : Nat) ≠ 0 ∧ c ≥ 0) := by simp
    by_cases hskip : skipCheck st link = true
    · rw [if_pos hskip]
      obtain ⟨ih1, ih2, ih3⟩ := ih st (i + 1) c (.skipped (startIndex + i + 1) link :: acc)
      refine ⟨?_, ?_, ?_⟩
      · rw [ih1]
        simp [DocOutcome.link]
      · simpa [DocOutcome.isSuccess] using ih2
      · intro idx l e hmem
        rcases ih3 idx l e hmem with hacc | hlog
        · rcases List.mem_cons.mp hacc with hhd | htl
          · exact absurd hhd (by simp)
          · exact Or.inl htl
        · exact Or.inr hlog
    · rw [if_neg hskip, if_neg hceil]
      cases hatt : attempt (startIndex + i + 1) link with
      | none =>
        dsimp only
        obtain ⟨ih1, ih2, ih3⟩ := ih
          (save_document_metadata hash st (mkRecord parseBody link) (startIndex + i + 1))
          (i + 1) (c + 1) (.succeeded (startIndex + i + 1) link :: acc)
        refine ⟨?_, ?_, ?_⟩
        · rw [ih1]
          simp [DocOutcome.link]
        · have h2 := ih2
          simp only [List.filter_cons, DocOutcome.isSuccess, if_true,
            List.length_cons] at h2
          omega
        · intro idx l e hmem
          rcases ih3 idx l e hmem with hacc | hlog
          · rcases List.mem_cons.mp hacc with hhd | htl
            · exact absurd hhd (by simp)
            · exact Or.inl htl
          · exact Or.inr hlog
      | some e0 =>
        dsimp only
        obtain ⟨ih1, ih2, ih3⟩ := ih
          (save_error_info st (startIndex + i + 1) link e0)
          (i + 1) c (.failed (startIndex + i + 1) link e0 :: acc)
        refine ⟨?_, ?_, ?_⟩
        · rw [ih1]
          simp [DocOutcome.link]
        · simpa [DocOutcome.isSuccess] using ih2
        · intro idx l e hmem
          rcases ih3 idx l e hmem with hacc | hlog
          · rcases List.mem_cons.mp hacc with hhd | htl
            · have hidx : idx = startIndex + i + 1 ∧ l = link ∧ e = e0 := by
                cases hhd; exact ⟨rfl, rfl, rfl⟩
              obtain ⟨rfl, rfl, rfl⟩ := hidx
              right
              apply seqGo_errorLog_mono
              exact List.mem_append_right _ (by simp)
            · exact Or.inl htl
          · exact Or.inr hlog

/-- C9. Per-document failure isolation in the sequential batch loop: every
link is examined in order regardless of earlier failures (no failure aborts
the batch), the returned count is exactly the number of successful
documents (failures are merely excluded), and every failing document gets
an error artifact carrying its own index, URL and error text.  In the
CONCURRENT loop the same failing document is still isolated, but the
error-recording loop indexes `document_links` by RESULT position, so after
a skipped document the artifact carries the wrong index and URL: with doc 1
(urlA) already processed and doc 2 (urlB) raising, the artifact records
index 1 and urlA instead of index 2 and urlB. -/
theorem per_document_failure_isolation (hash : MetaRecord → String)
    (parseBody : String → String) (attempt : Nat → String → Option String)
    (startIndex : Nat) (st : StorageState) (links : List String) :
    ((process_documents_sequential hash parseBody attempt 0 st links
        startIndex).outcomes.map DocOutcome.link = links)
    ∧ ((process_documents_sequential hash parseBody attempt 0 st links
          startIndex).processed_count
        = ((process_documents_sequential hash parseBody attempt 0 st links
            startIndex).outcomes.filter DocOutcome.isSuccess).length)
    ∧ (∀ idx l e,
        DocOutcome.failed idx l e
            ∈ (process_documents_sequential hash parseBody attempt 0 st links
                startIndex).outcomes →
        (idx, l, e)
            ∈ (process_documents_sequential hash parseBody attempt 0 st links
                startIndex).state.errorLog)
    ∧ (process_documents_concurrent demoHash demoParseBody attemptFail2 0 preSt
        [urlA, urlB] 0).tasks = [(2, urlB)]
    ∧ (process_documents_concurrent demoHash demoParseBody attemptFail2 0 preSt
        [urlA, urlB] 0).state.errorLog = [(1, urlA, "boom")]
    ∧ ¬ ((2, urlB, "boom")
        ∈ (process_documents_concurrent demoHash demoParseBody attemptFail2 0 preSt
            [urlA, urlB] 0).state.errorLog) := by
  obtain ⟨h1, h2, h3⟩ := seqGo_isolation hash parseBody attempt startIndex links st 0 0 []
  refine ⟨by simpa using h1, by simpa using h2, ?_, by decide, by decide, by decide⟩
  intro idx l e hmem
  rcases h3 idx l e hmem with hacc | hlog
  · exact absurd hacc (List.not_mem_nil _)
  · exact hlog

/-- Witness for C9 at a concrete failing batch. -/
theorem per_document_failure_isolation_witness :
    (2, urlB, "boom")
      ∈ (process_documents_sequential demoHash demoParseBody attemptFail2 0
          (initStorage "s" "t0") [urlA, urlB] 0).state.errorLog := by
  have h := per_document_failure_isolation demoHash demoParseBody attemptFail2 0
    (initStorage "s" "t0") [urlA, urlB]
  exact h.2.2.1 2 urlB "boom" (by decide)

/-! ## Resume idempotence (C1) -/

lemma is_document_processed_iff {st : StorageState} {d : String} :
    is_document_processed st d = true ↔ d ∈ checkpointIds st := by
  rw [is_document_processed, checkpointIds]
  cases st.checkpoint_data with
  | none => simp
  | some cd => simp

lemma restore_hashes (st : StorageState) : (restoreStorage st).hashes = st.hashes := rfl

lemma restore_docs (st : StorageState) :
    checkpointDocs (restoreStorage st) = checkpointDocs st := by
  cases hcd : st.checkpoint_data with
  | none => rw [restoreStorage_data_none hcd]
  | some cd =>
    rw [checkpointDocs_of_data (restoreStorage_data_some hcd),
      checkpointDocs_of_data hcd, restoreCheckpoint]

lemma restore_processed (st : StorageState) (d : String) :
    is_document_processed (restoreStorage st) d = is_document_processed st d := by
  cases hcd : st.checkpoint_data with
  | none => rw [restoreStorage_data_none hcd]
  | some cd =>
    simp only [is_document_processed, restoreStorage_data_some hcd, hcd,
      restoreCheckpoint]
    exact decide_eq_decide.mpr mem_listToSet

lemma is_duplicate_of_lookup_none {hashes : List (String × String)} {f h : String}
    (hl : lookupAssoc hashes f = none) : is_duplicate hashes f h = false := by
  rw [is_duplicate, hl]

lemma is_duplicate_of_lookup_some {hashes : List (String × String)} {f h : String}
    (hl : lookupAssoc hashes f = some h) : is_duplicate hashes f h = true := by
  rw [is_duplicate, hl]
  simp

lemma freshFrom_succ_of_setAssoc {sIdx i : Nat} {st st' : StorageState}
    {hash' : String} (hf : FreshFrom sIdx st i)
    (hh : st'.hashes = setAssoc st.hashes (metadataFilename (sIdx + i + 1)) hash') :
    FreshFrom sIdx st' (i + 1) := by
  intro j hj
  rw [hh, lookupAssoc_setAssoc_ne]
  · exact hf j (by omega)
  · intro he
    have := metadataFilename_injective he
    omega

/-- Postcondition of a batch run with all attempts succeeding, no ceiling,
starting from a state whose upcoming metadata filenames are fresh (as a
fresh session is): the checkpoint survives, previously registered hashes
and recorded IDs persist, and afterwards every link with a docid has that
id in the checkpoint while every docid-less link has its metadata hash
registered under its filename. -/
lemma seqGo_fresh_run (hash : MetaRecord → String) (parseBody : String → String)
    (sIdx : Nat) :
    ∀ (links : List String) (st : StorageState) (i c : Nat) (acc : List DocOutcome),
      st.checkpoint_data.isSome = true →
      FreshFrom sIdx st i →
      (seqGo hash parseBody attemptOk 0 sIdx st i c acc links).state.checkpoint_data.isSome
          = true
      ∧ (∀ f h, lookupAssoc st.hashes f = some h →
          lookupAssoc (seqGo hash parseBody attemptOk 0 sIdx st i c acc links).state.hashes f
            = some h)
      ∧ (∀ d, d ∈ checkpointIds st →
          d ∈ checkpointIds (seqGo hash parseBody attemptOk 0 sIdx st i c acc links).state)
      ∧ (∀ k, k < links.length →
          (∀ d, extract_doc_id_from_url (links.getD k "") = some d →
            d ∈ checkpointIds (seqGo hash parseBody attemptOk 0 sIdx st i c acc links).state)
          ∧ (extract_doc_id_from_url (links.getD k "") = none →
            lookupAssoc
                (seqGo hash parseBody attemptOk 0 sIdx st i c acc links).state.hashes
                (metadataFilename (sIdx + i + k + 1))
              = some (hash (mkRecord parseBody (links.getD k ""))))) := by
  intro links
  induction links with
  | nil =>
    intro st i c acc hsome hfresh
    rw [seqGo]
    exact ⟨hsome, fun f h hf => hf, fun d hd => hd, fun k hk => absurd hk (by simp)⟩
  | cons link rest ih =>
    intro st i c acc hsome hfresh
    rw [seqGo]
    have hceil : ¬ ((0 : Nat) ≠ 0 ∧ c ≥ 0) := by simp
    have hdup : is_duplicate st.hashes (metadataFilename (sIdx + i + 1))
        (hash (mkRecord parseBody link)) = false :=
      is_duplicate_of_lookup_none (hfresh i (le_refl i))
    cases he : extract_doc_id_from_url link with
    | none =>
      have hsk : skipCheck st link = false := by rw [skipCheck, he]
      rw [if_neg (by simp [hsk]), if_neg hceil]
      dsimp only [attemptOk]
      have hrec : (mkRecord parseBody link).doc_id = none := he
      have hckpt : (save_document_metadata hash st (mkRecord parseBody link)
          (sIdx + i + 1)).checkpoint_data = st.checkpoint_data :=
        save_document_metadata_checkpoint_falsy (by rw [truthyOptStr.eq_def, hrec])
      have hhashes := (save_document_metadata_not_dup hdup).1
      have hsome' : (save_document_metadata hash st (mkRecord parseBody link)
          (sIdx + i + 1)).checkpoint_data.isSome = true := by rw [hckpt]; exact hsome
      have hfresh' := freshFrom_succ_of_setAssoc hfresh hhashes
      obtain ⟨hS, hA, hB, hC⟩ := ih
        (save_document_metadata hash st (mkRecord parseBody link) (sIdx + i + 1))
        (i + 1) (c + 1) (.succeeded (sIdx + i + 1) link :: acc) hsome' hfresh'
      refine ⟨hS, ?_, ?_, ?_⟩
      · intro f h hf
        have hfne : f ≠ metadataFilename (sIdx + i + 1) := by
          intro hfe
          rw [hfe, hfresh i (le_refl i)] at hf
          cases hf
        apply hA
        rw [hhashes, lookupAssoc_setAssoc_ne hfne]
        exact hf
      · intro d hd
        apply hB
        rw [checkpointIds_eq_of_data hckpt]
        exact hd
      · intro k hk
        cases k with
        | zero =>
          constructor
          · intro d hd
            rw [List.getD_cons_zero, he] at hd
            cases hd
          · intro _
            have hidx : sIdx + i + 0 + 1 = sIdx + i + 1 := by omega
            rw [List.getD_cons_zero, hidx]
            apply hA
            rw [hhashes]
            exact lookupAssoc_setAssoc_self _ _ _
        | succ k =>
          have hk' : k < rest.length := by simpa using hk
          have hrest := hC k hk'
          rw [List.getD_cons_succ]
          have hidx : sIdx + (i + 1) + k + 1 = sIdx + i + (k + 1) + 1 := by omega
          rw [← hidx]
          exact hrest
    | some d =>
      have hdne : d ≠ "" := findDocid_ne_empty he
      cases hproc : is_document_processed st d with
      | true =>
        have hsk : skipCheck st link = true := by
          rw [skipCheck, he]
          simp [hdne, hproc]
        rw [if_pos hsk]
        obtain ⟨hS, hA, hB, hC⟩ := ih st (i + 1) c
          (.skipped (sIdx + i + 1) link :: acc) hsome (fun j hj => hfresh j (by omega))
        refine ⟨hS, hA, hB, ?_⟩
        intro k hk
        cases k with
        | zero =>
          constructor
          · intro d' hd'
            rw [List.getD_cons_zero, he] at hd'
            have hdd : d = d' := by injection hd'
            apply hB
            rw [← hdd]
            exact is_document_processed_iff.mp hproc
          · intro hnone
            rw [List.getD_cons_zero, he] at hnone
            cases hnone
        | succ k =>
          have hk' : k < rest.length := by simpa using hk
          have hrest := hC k hk'
          rw [List.getD_cons_succ]
          have hidx : sIdx + (i + 1) + k + 1 = sIdx + i + (k + 1) + 1 := by omega
          rw [← hidx]
          exact hrest
      | false =>
        have hsk : skipCheck st link = false := by
          rw [skipCheck, he]
          simp [hproc]
        rw [if_neg (by simp [hsk]), if_neg hceil]
        dsimp only [attemptOk]
        have hrec : (mkRecord parseBody link).doc_id = some d := he
        obtain ⟨cd, hcd⟩ := Option.isSome_iff_exists.mp hsome
        have hckpt : (save_document_metadata hash st (mkRecord parseBody link)
            (sIdx + i + 1)).checkpoint_data
              = some { cd with
                       processed_documents := cd.processed_documents + 1
                       processed_doc_ids := insertId d cd.processed_doc_ids } :=
          save_document_metadata_checkpoint_truthy hdup hcd hrec hdne
        have hhashes := (save_document_metadata_not_dup hdup).1
        have hsome' : (save_document_metadata hash st (mkRecord parseBody link)
            (sIdx + i + 1)).checkpoint_data.isSome = true := by rw [hckpt]; rfl
        have hfresh' := freshFrom_succ_of_setAssoc hfresh hhashes
        obtain ⟨hS, hA, hB, hC⟩ := ih
          (save_document_metadata hash st (mkRecord parseBody link) (sIdx + i + 1))
          (i + 1) (c + 1) (.succeeded (sIdx + i + 1) link :: acc) hsome' hfresh'
        have hids' : checkpointIds (save_document_metadata hash st
            (mkRecord parseBody link) (sIdx + i + 1))
              = insertId d cd.processed_doc_ids := checkpointIds_of_data hckpt
        refine ⟨hS, ?_, ?_, ?_⟩
        · intro f h hf
          have hfne : f ≠ metadataFilename (sIdx + i + 1) := by
            intro hfe
            rw [hfe, hfresh i (le_refl i)] at hf
            cases hf
          apply hA
          rw [hhashes, lookupAssoc_setAssoc_ne hfne]
          exact hf
        · intro d' hd'
          apply hB
          rw [hids']
          rw [checkpointIds_of_data hcd] at hd'
          exact mem_insertId.mpr (Or.inr hd')
        · intro k hk
          cases k with
          | zero =>
            constructor
            · intro d' hd'
              rw [List.getD_cons_zero, he] at hd'
              have hdd : d = d' := by injection hd'
              apply hB
              rw [hids', ← hdd]
              exact mem_insertId.mpr (Or.inl rfl)
            · intro hnone
              rw [List.getD_cons_zero, he] at hnone
              cases hnone
          | succ k =>
            have hk' : k < rest.length := by simpa using hk
            have hrest := hC k hk'
            rw [List.getD_cons_succ]
            have hidx : sIdx + (i + 1) + k + 1 = sIdx + i + (k + 1) + 1 := by omega
            rw [← hidx]
            exact hrest

/-- Stability: when every link is either already recorded in the checkpoint
(by its docid) or a docid-less link whose metadata hash is already
registered under its filename, the batch run leaves the storage state
completely unchanged, and every document it does dispatch is docid-less. -/
lemma seqGo_stable (hash : MetaRecord → String) (parseBody : String → String)
    (sIdx : Nat) :
    ∀ (links : List String) (st : StorageState) (i c : Nat) (acc : List DocOutcome),
      (∀ k, k < links.length →
        (∃ d, extract_doc_id_from_url (links.getD k "") = some d
            ∧ is_document_processed st d = true)
        ∨ (extract_doc_id_from_url (links.getD k "") = none
            ∧ is_duplicate st.hashes (metadataFilename (sIdx + i + k + 1))
                (hash (mkRecord parseBody (links.getD k ""))) = true)) →
      (seqGo hash parseBody attemptOk 0 sIdx st i c acc links).state = st
      ∧ (∀ o ∈ (seqGo hash parseBody attemptOk 0 sIdx st i c acc links).outcomes,
          o ∈ acc ∨ ∀ idx l, o = DocOutcome.succeeded idx l →
            extract_doc_id_from_url l = none) := by
  intro links
  induction links with
  | nil =>
    intro st i c acc _
    rw [seqGo]
    exact ⟨rfl, fun o ho => Or.inl (List.mem_reverse.mp ho)⟩
  | cons link rest ih =>
    intro st i c acc hstable
    rw [seqGo]
    have hceil : ¬ ((0 : Nat) ≠ 0 ∧ c ≥ 0) := by simp
    have h0 := hstable 0 (by simp)
    rw [List.getD_cons_zero] at h0
    have hshift : ∀ k, k < rest.length →
        (∃ d, extract_doc_id_from_url (rest.getD k "") = some d
            ∧ is_document_processed st d = true)
        ∨ (extract_doc_id_from_url (rest.getD k "") = none
            ∧ is_duplicate st.hashes (metadataFilename (sIdx + (i + 1) + k + 1))
                (hash (mkRecord parseBody (rest.getD k ""))) = true) := by
      intro k hk
      have hsh := hstable (k + 1) (by simpa using hk)
      rw [List.getD_cons_succ] at hsh
      have hidx : sIdx + i + (k + 1) + 1 = sIdx + (i + 1) + k + 1 := by omega
      rw [hidx] at hsh
      exact hsh
    rcases h0 with ⟨d, hd, hproc⟩ | ⟨hnone, hdup⟩
    · have hsk : skipCheck st link = true := by
        rw [skipCheck, hd]
        simp [findDocid_ne_empty hd, hproc]
      rw [if_pos hsk]
      obtain ⟨hstate, houts⟩ := ih st (i + 1) c
        (.skipped (sIdx + i + 1) link :: acc) hshift
      refine ⟨hstate, ?_⟩
      intro o ho
      rcases houts o ho with hacc | hprop
      · rcases List.mem_cons.mp hacc with rfl | htl
        · exact Or.inr (fun idx l hl => by cases hl)
        · exact Or.inl htl
      · exact Or.inr hprop
    · have hsk : skipCheck st link = false := by rw [skipCheck, hnone]
      rw [if_neg (by simp [hsk]), if_neg hceil]
      dsimp only [attemptOk]
      rw [save_document_metadata_dup hdup]
      obtain ⟨hstate, houts⟩ := ih st (i + 1) (c + 1)
        (.succeeded (sIdx + i + 1) link :: acc) hshift
      refine ⟨hstate, ?_⟩
      intro o ho
      rcases houts o ho with hacc | hprop
      · rcases List.mem_cons.mp hacc with rfl | htl
        · refine Or.inr (fun idx l hl => ?_)
          cases hl
          exact hnone
        · exact Or.inl htl
      · exact Or.inr hprop

/-- C1. Resume idempotence: for every sequence of discovered document
links, running the batch pipeline to completion and re-running it from the
persisted checkpoint leaves the restored storage state completely
unchanged — every link whose extracted doc_id satisfies
`is_document_processed` is skipped before dispatch, so every document the
re-run does dispatch is docid-less (zero previously-seen document IDs are
processed) and its save is deduplicated away — and the final persisted
processed-document count equals that of the single uninterrupted run. -/
theorem resume_idempotence (hash : MetaRecord → String) (parseBody : String → String)
    (links : List String) (sid now : String) :
    (rerun hash parseBody links sid now).state
        = restoreStorage (firstRun hash parseBody links sid now).state
    ∧ checkpointDocs (rerun hash parseBody links sid now).state
        = checkpointDocs (firstRun hash parseBody links sid now).state
    ∧ (∀ o ∈ (rerun hash parseBody links sid now).outcomes,
        ∀ idx l, o = DocOutcome.succeeded idx l →
          extract_doc_id_from_url l = none) := by
  have hfresh : FreshFrom 0 (initStorage sid now) 0 := fun j hj => rfl
  have hsome : (initStorage sid now).checkpoint_data.isSome = true := rfl
  obtain ⟨hS, hA, hB, hC⟩ := seqGo_fresh_run hash parseBody 0 links
    (initStorage sid now) 0 0 [] hsome hfresh
  have hstable : ∀ k, k < links.length →
      (∃ d, extract_doc_id_from_url (links.getD k "") = some d
          ∧ is_document_processed
              (restoreStorage (firstRun hash parseBody links sid now).state) d = true)
      ∨ (extract_doc_id_from_url (links.getD k "") = none
          ∧ is_duplicate
              (restoreStorage (firstRun hash parseBody links sid now).state).hashes
              (metadataFilename (0 + 0 + k + 1))
              (hash (mkRecord parseBody (links.getD k ""))) = true) := by
    intro k hk
    cases he : extract_doc_id_from_url (links.getD k "") with
    | some d =>
      left
      refine ⟨d, rfl, ?_⟩
      rw [restore_processed]
      exact is_document_processed_iff.mpr ((hC k hk).1 d he)
    | none =>
      right
      refine ⟨rfl, ?_⟩
      rw [restore_hashes]
      exact is_duplicate_of_lookup_some ((hC k hk).2 he)
  obtain ⟨hstate, houts⟩ := seqGo_stable hash parseBody 0 links
    (restoreStorage (firstRun hash parseBody links sid now).state) 0 0 [] hstable
  refine ⟨hstate, ?_, ?_⟩
  · rw [show (rerun hash parseBody links sid now).state
        = restoreStorage (firstRun hash parseBody links sid now).state from hstate]
    exact restore_docs _
  · intro o ho idx l hol
    rcases houts o ho with hacc | hprop
    · exact absurd hacc (List.not_mem_nil _)
    · exact hprop idx l hol

/-- Witness for C1 on a concrete two-link crawl (one docid link, one
CELEX link): the re-run's persisted count matches the first run's, and the
one document the re-run dispatches is the docid-less one. -/
theorem resume_idempotence_witness :
    checkpointDocs (rerun demoHash demoParseBody [urlA, celexUrl] "s" "t0").state
      = checkpointDocs (firstRun demoHash demoParseBody [urlA, celexUrl] "s" "t0").state
    ∧ extract_doc_id_from_url celexUrl = none := by
  have h := resume_idempotence demoHash demoParseBody [urlA, celexUrl] "s" "t0"
  exact ⟨h.2.1, h.2.2 (DocOutcome.succeeded 2 celexUrl) (by decide) 2 celexUrl rfl⟩

end Scraper
